import Mathlib

/-!
Shallow embedding of the `font-tools` repository (crate `font-subset`):
OpenType font parsing, subsetting and serialization.

Bytes are modelled as `Nat`s (values < 256 wherever the Rust code produces
them); `u16`/`u32` arithmetic is modelled on `Nat` with explicit `% 2^16` /
`% 2^32` at the points where the Rust code wraps or narrows.  Fallible Rust
code returns `Except`/`Option`; Rust panics (out-of-bounds indexing,
`expect`, debug-mode integer underflow) are modelled by a dedicated `panic`
constructor or by `Option.none`, as noted at each definition.
-/

namespace FontTools

/-- Decidable equality for `Except` results (used to evaluate the embedded
parsers on concrete inputs). -/
instance {ε α : Type} [DecidableEq ε] [DecidableEq α] : DecidableEq (Except ε α)
  | Except.ok a, Except.ok b =>
    if h : a = b then Decidable.isTrue (by rw [h])
    else Decidable.isFalse (by intro hc; cases hc; exact h rfl)
  | Except.ok _, Except.error _ => Decidable.isFalse (by intro hc; cases hc)
  | Except.error _, Except.ok _ => Decidable.isFalse (by intro hc; cases hc)
  | Except.error e, Except.error f =>
    if h : e = f then Decidable.isTrue (by rw [h])
    else Decidable.isFalse (by intro hc; cases hc; exact h rfl)

/-- `u16::to_be_bytes` (big-endian), as written by `write_u16` in
`write/mod.rs`.  The argument is reduced `% 2^16`, which is the identity for
every value the Rust code can pass (it is already a `u16` there). -/
def u16BE (v : Nat) : List Nat := [v % 65536 / 256, v % 256]

/-- `u32::to_be_bytes` (big-endian), as written by `write_u32` in
`write/mod.rs`.  The argument is reduced `% 2^32` (identity in-range). -/
def u32BE (v : Nat) : List Nat :=
  [v % 4294967296 / 16777216, v % 16777216 / 65536, v % 65536 / 256, v % 256]

/-- Value of one checksum chunk: the chunk's bytes are copied to the front of
a zeroed 4-byte array and read back as a big-endian `u32`
(`Font::checksum` in `font/mod.rs`). -/
def beWord (chunk : List Nat) : Nat :=
  ((chunk ++ List.replicate 4 0).take 4).foldl (fun acc b => acc * 256 + b % 256) 0

/-- Split a byte list into chunks of (at most) 4 bytes (`bytes.chunks(4)`). -/
def chunks4 : List Nat → List (List Nat)
  | [] => []
  | [a] => [[a]]
  | [a, b] => [[a, b]]
  | [a, b, c] => [[a, b, c]]
  | a :: b :: c :: d :: rest => [a, b, c, d] :: chunks4 rest

/-- `Font::checksum`: wrapping sum of the big-endian `u32` words of `bytes`,
the final partial word zero-padded (`font/mod.rs`). -/
def checksum (bytes : List Nat) : Nat :=
  (chunks4 bytes).foldl (fun acc chunk => (acc + beWord chunk) % 4294967296) 0

/-- `uint_base128_len` from `write/mod.rs`: number of bytes in the Base-128
encoding of `val` (`val.ilog2() / 7 + 1`, with `0` taking 1 byte). -/
def uint_base128_len (val : Nat) : Nat :=
  if val = 0 then 1 else Nat.log2 val / 7 + 1

/-- `write_uint_base128` from `write/mod.rs`.  Each conditional pushes
`0x80 | (val >> k) as u8`; setting bit 7 of the truncated shifted value
yields the byte `128 + (val >> k) % 128`. -/
def write_uint_base128 (buffer : List Nat) (val : Nat) : List Nat :=
  buffer ++
    (if 2 ^ 28 ≤ val then [128 + val / 2 ^ 28 % 128] else []) ++
    (if 2 ^ 21 ≤ val then [128 + val / 2 ^ 21 % 128] else []) ++
    (if 2 ^ 14 ≤ val then [128 + val / 2 ^ 14 % 128] else []) ++
    (if 2 ^ 7 ≤ val then [128 + val / 2 ^ 7 % 128] else []) ++
    [val % 128]

/-- Decoder for big-endian Base-128 varints, following the claim's words:
7 payload bits per byte, high bit a continuation marker (ignored here via
`% 128`).  The repository has no decoder; this is the specification side of
the round-trip. -/
def decodeBase128 (bytes : List Nat) : Nat :=
  bytes.foldl (fun acc b => acc * 128 + b % 128) 0

/-- `LocaFormat` from `font/mod.rs`. -/
inductive LocaFormat where
  | Short
  | Long
  deriving DecidableEq, Repr

/-! ### `cmap` data model (`font/cmap.rs`) -/

/-- `SegmentWithDelta`: one segment of a format-4 `cmap` subtable. -/
structure SegmentWithDelta where
  start_code : Nat
  end_code : Nat
  id_delta : Nat
  id_range_offset : Nat
  deriving DecidableEq, Repr

/-- `SegmentDeltas`: format-4 (segment mapping to delta values) subtable. -/
structure SegmentDeltas where
  segments : List SegmentWithDelta
  glyph_id_array : List Nat
  deriving DecidableEq, Repr

/-- `SequentialMapGroup`: one group of a format-12 `cmap` subtable. -/
structure SequentialMapGroup where
  start_char_code : Nat
  end_char_code : Nat
  start_glyph_id : Nat
  deriving DecidableEq, Repr

/-- `SequentialMapGroup::map_unchecked`.  The `u32` subtraction
`ch - start_char_code` is modelled by truncated `Nat` subtraction; the only
caller (`create_coverage`) invokes it with `ch > end_char_code ≥
start_char_code`, where both agree. -/
def SequentialMapGroup.map_unchecked (g : SequentialMapGroup) (ch : Nat) : Nat :=
  ch - g.start_char_code + g.start_glyph_id

/-- `SegmentedCoverage`: format-12 (segmented coverage) subtable. -/
structure SegmentedCoverage where
  groups : List SequentialMapGroup
  deriving DecidableEq, Repr

/-- `CmapTable` (crates revision): exactly one supported subtable. -/
inductive CmapTable where
  | Deltas (deltas : SegmentDeltas)
  | Coverage (coverage : SegmentedCoverage)
  deriving DecidableEq, Repr

/-- Core-Rust `slice::binary_search_by` loop, specialized to a list of `Nat`
keys compared against `target` (as used by `binary_search_by_key` in
`map_char`): `Except.error pos` is Rust's `Err(pos)` insertion point.
The interval shrinks every iteration, so `fuel = keys.length + 1` (as passed
by `binarySearchByKey`) never runs out; the fuel only makes the recursion
structural. -/
def bsLoop (keys : List Nat) (target : Nat) : Nat → Nat → Nat → Except Nat Nat
  | 0, left, _ => Except.error left
  | fuel + 1, left, right =>
    if left < right then
      let mid := left + (right - left) / 2
      let key := keys.getD mid 0
      if key < target then bsLoop keys target fuel (mid + 1) right
      else if target < key then bsLoop keys target fuel left mid
      else Except.ok mid
    else Except.error left

/-- `slice::binary_search_by_key(&target, key)` over the whole list. -/
def binarySearchByKey (keys : List Nat) (target : Nat) : Except Nat Nat :=
  bsLoop keys target (keys.length + 1) 0 keys.length

/-- `MapError` from `errors.rs`. -/
inductive MapError where
  | CharTooLarge
  | InvalidOffset
  deriving DecidableEq, Repr

/-- `SegmentDeltas::map_char` (`font/cmap.rs`).  Result `none` models a Rust
panic: the direct indexing `self.segments[segment_idx]` panics when the
binary search returns an insertion point equal to `segments.len()` (no
segment has `end_code ≥ c`). -/
def SegmentDeltas.map_char (sd : SegmentDeltas) (ch : Nat) :
    Option (Except MapError Nat) :=
  -- `u16::try_from(c as u32).map_err(|_| MapError::CharTooLarge)?`
  if 65535 < ch then some (Except.error MapError.CharTooLarge)
  else
    let segment_idx := match binarySearchByKey (sd.segments.map (·.end_code)) ch with
      | Except.ok pos => pos
      | Except.error pos => pos
    match sd.segments[segment_idx]? with
    | none => none -- `&self.segments[segment_idx]`: index out of bounds panic
    | some segment =>
      if ch < segment.start_code then some (Except.ok 0) -- missing glyph
      else if segment.id_range_offset = 0 then
        some (Except.ok ((segment.id_delta + ch) % 65536)) -- `wrapping_add`
      else
        let byte_offset :=
          2 * segment_idx + segment.id_range_offset + 2 * (ch - segment.start_code)
        if byte_offset < 2 * sd.segments.length then
          some (Except.error MapError.InvalidOffset)
        else
          let byte_offset := byte_offset - 2 * sd.segments.length
          -- `glyph_id_array.get(byte_offset..byte_offset + 2)`
          if byte_offset + 2 ≤ sd.glyph_id_array.length then
            let glyph_id :=
              sd.glyph_id_array.getD byte_offset 0 * 256 +
                sd.glyph_id_array.getD (byte_offset + 1) 0
            some (Except.ok ((segment.id_delta + glyph_id) % 65536))
          else some (Except.error MapError.InvalidOffset)

/-- `SegmentedCoverage::map_char` (`font/cmap.rs`).  Result `none` models the
panic of `glyph_id.try_into().expect("glyph ID exceeds u16::MAX")`. -/
def SegmentedCoverage.map_char (cov : SegmentedCoverage) (ch : Nat) : Option Nat :=
  let group_idx := match binarySearchByKey (cov.groups.map (·.end_char_code)) ch with
    | Except.ok pos => pos
    | Except.error pos => pos
  match cov.groups[group_idx]? with
  | none => some 0 -- `ch` exceeds `end_char_code` for the last segment
  | some group =>
    if ch < group.start_char_code then some 0 -- missing glyph
    else
      let glyph_id := ch - group.start_char_code + group.start_glyph_id
      if glyph_id ≤ 65535 then some glyph_id else none

/-- `CmapTable::map_char`: dispatch on the subtable variant. -/
def CmapTable.map_char (t : CmapTable) (ch : Nat) : Option (Except MapError Nat) :=
  match t with
  | CmapTable.Deltas deltas => deltas.map_char ch
  | CmapTable.Coverage coverage => (coverage.map_char ch).map Except.ok

/-! ### Binary cursor and parse errors (`font/mod.rs`) -/

/-- `ParseErrorKind` from `errors.rs` (payloads kept where structural). -/
inductive ParseErrorKind where
  | UnexpectedEof
  | UnexpectedFontVersion
  | MissingTable
  | UnalignedTable
  | NoSupportedCmap
  | OffsetOutOfBounds (offset : Nat)
  | RangeOutOfBounds (rstart rend len : Nat)
  | UnexpectedTableVersion (version : Nat)
  | UnexpectedTableLen (expected actual : Nat)
  | UnexpectedTableFormat (format : Nat)
  | Checksum (expected actual : Nat)
  deriving DecidableEq, Repr

/-- `ParseError`: kind plus the cursor offset.  The optional owning-table tag
of the Rust struct is pure error context and is not modelled. -/
structure ParseError where
  kind : ParseErrorKind
  offset : Nat
  deriving DecidableEq, Repr

/-- `Cursor`: a window into the input plus its absolute offset. -/
structure Cursor where
  bytes : List Nat
  offset : Nat
  deriving DecidableEq, Repr

namespace Cursor

def err (c : Cursor) (kind : ParseErrorKind) : ParseError := ⟨kind, c.offset⟩

/-- `Cursor::skip`. -/
def skip (c : Cursor) (n : Nat) : Except ParseError Cursor :=
  if c.bytes.length < n then Except.error (c.err ParseErrorKind.UnexpectedEof)
  else Except.ok ⟨c.bytes.drop n, c.offset + n⟩

/-- `Cursor::read_u16` (big-endian). -/
def readU16 (c : Cursor) : Except ParseError (Nat × Cursor) :=
  match c.bytes with
  | a :: b :: rest => Except.ok (a * 256 + b, ⟨rest, c.offset + 2⟩)
  | _ => Except.error (c.err ParseErrorKind.UnexpectedEof)

/-- `Cursor::read_u32` (big-endian). -/
def readU32 (c : Cursor) : Except ParseError (Nat × Cursor) :=
  match c.bytes with
  | a :: b :: cc :: d :: rest =>
      Except.ok (a * 16777216 + b * 65536 + cc * 256 + d, ⟨rest, c.offset + 4⟩)
  | _ => Except.error (c.err ParseErrorKind.UnexpectedEof)

/-- `Cursor::read_u16_checked`: on a failed check the error carries the
starting offset of the value. -/
def readU16Checked {α : Type} (c : Cursor) (check : Nat → Except ParseErrorKind α) :
    Except ParseError (α × Cursor) := do
  let (v, c') ← c.readU16
  match check v with
  | Except.error kind => Except.error ⟨kind, c'.offset - 2⟩
  | Except.ok a => Except.ok (a, c')

/-- `Cursor::read_u32_checked`. -/
def readU32Checked {α : Type} (c : Cursor) (check : Nat → Except ParseErrorKind α) :
    Except ParseError (α × Cursor) := do
  let (v, c') ← c.readU32
  match check v with
  | Except.error kind => Except.error ⟨kind, c'.offset - 4⟩
  | Except.ok a => Except.ok (a, c')

/-- `Cursor::read_byte_array::<N>`. -/
def readByteArray (c : Cursor) (n : Nat) : Except ParseError (List Nat × Cursor) :=
  if c.bytes.length < n then Except.error (c.err ParseErrorKind.UnexpectedEof)
  else Except.ok (c.bytes.take n, ⟨c.bytes.drop n, c.offset + n⟩)

/-- `Cursor::range(a..b)`: `bytes.get(a..b)` fails unless `a ≤ b ≤ len`. -/
def range (c : Cursor) (rstart rend : Nat) : Except ParseError Cursor :=
  if rstart ≤ rend ∧ rend ≤ c.bytes.length then
    Except.ok ⟨(c.bytes.drop rstart).take (rend - rstart), c.offset + rstart⟩
  else Except.error (c.err (ParseErrorKind.RangeOutOfBounds rstart rend c.bytes.length))

/-- `Cursor::split_at`. -/
def splitAt (c : Cursor) (pos : Nat) : Except ParseError (Cursor × Cursor) := do
  let pre ← c.range 0 pos
  let c' ← c.skip pos
  Except.ok (pre, c')

end Cursor

/-! ### `cmap` parsing (`font/cmap.rs`, crates revision) -/

/-- Loop body of `SegmentDeltas::parse`: read `segment_count` segments from
the four parallel-array cursors (start, end, delta, range-offset order per
iteration, as in the source's `map` closure). -/
def readSegments : Nat → Cursor → Cursor → Cursor → Cursor →
    Except ParseError (List SegmentWithDelta)
  | 0, _, _, _, _ => Except.ok []
  | n + 1, start_codes, end_codes, id_deltas, id_range_offsets => do
    let (start_code, start_codes) ← start_codes.readU16
    let (end_code, end_codes) ← end_codes.readU16
    let (id_delta, id_deltas) ← id_deltas.readU16
    let (id_range_offset, id_range_offsets) ← id_range_offsets.readU16
    let rest ← readSegments n start_codes end_codes id_deltas id_range_offsets
    Except.ok ({ start_code, end_code, id_delta, id_range_offset } :: rest)

/-- `SegmentDeltas::parse`. -/
def SegmentDeltas.parse (cursor : Cursor) : Except ParseError SegmentDeltas := do
  let (_, cursor) ← cursor.readU16Checked fun format =>
    if format ≠ 4 then Except.error (ParseErrorKind.UnexpectedTableFormat format)
    else Except.ok ()
  let (remaining_len, cursor) ← cursor.readU16Checked fun subtable_len =>
    -- `subtable_len.checked_sub(4).ok_or(UnexpectedEof)`
    if subtable_len < 4 then Except.error ParseErrorKind.UnexpectedEof
    else Except.ok (subtable_len - 4)
  let cursor ← cursor.range 0 remaining_len
  let cursor ← cursor.skip 2 -- language
  let (seg_count_x2, cursor) ← cursor.readU16
  let segment_count := seg_count_x2 / 2
  let cursor ← cursor.skip 6 -- searchRange, entrySelector, rangeShift
  let vec_len := 2 * segment_count
  let (end_codes, cursor) ← cursor.splitAt vec_len
  let cursor ← cursor.skip 2 -- reserved padding
  let (start_codes, cursor) ← cursor.splitAt vec_len
  let (id_deltas, cursor) ← cursor.splitAt vec_len
  let (id_range_offsets, cursor) ← cursor.splitAt vec_len
  let segments ← readSegments segment_count start_codes end_codes id_deltas id_range_offsets
  Except.ok { segments, glyph_id_array := cursor.bytes }

/-- Loop body of `SegmentedCoverage::parse`: read `num_groups` groups. -/
def readGroups : Nat → Cursor → Except ParseError (List SequentialMapGroup × Cursor)
  | 0, cursor => Except.ok ([], cursor)
  | n + 1, cursor => do
    let (start_char_code, cursor) ← cursor.readU32
    let (end_char_code, cursor) ← cursor.readU32
    let (start_glyph_id, cursor) ← cursor.readU32
    let (rest, cursor) ← readGroups n cursor
    Except.ok ({ start_char_code, end_char_code, start_glyph_id } :: rest, cursor)

/-- `SegmentedCoverage::parse`. -/
def SegmentedCoverage.parse (cursor : Cursor) : Except ParseError SegmentedCoverage := do
  let (_, cursor) ← cursor.readU16Checked fun format =>
    if format ≠ 12 then Except.error (ParseErrorKind.UnexpectedTableFormat format)
    else Except.ok ()
  let cursor ← cursor.skip 2 -- reserved
  let (remaining_len, cursor) ← cursor.readU32Checked fun subtable_len =>
    if subtable_len < 8 then Except.error ParseErrorKind.UnexpectedEof
    else Except.ok (subtable_len - 8)
  let cursor ← cursor.range 0 remaining_len
  let cursor ← cursor.skip 4 -- language
  let (num_groups, cursor) ← cursor.readU32
  let (groups, _) ← readGroups num_groups cursor
  Except.ok { groups }

/-- Loop of `CmapTable::parse` over the `num_tables` subtable records.
`this` accumulates the first supported subtable of either kind. -/
def cmapParseLoop (table_cursor : Cursor) :
    Nat → Cursor → Option CmapTable → Except ParseError (Option CmapTable × Cursor)
  | 0, cursor, this => Except.ok (this, cursor)
  | n + 1, cursor, this => do
    let (platform_id, cursor) ← cursor.readU16
    let (encoding_id, cursor) ← cursor.readU16
    let (offset, cursor) ← cursor.readU32
    if (platform_id = 0 ∧ encoding_id = 3) ∨ (platform_id = 3 ∧ encoding_id = 1) then
      match this with
      | none => do
        let subtable ← table_cursor.skip offset
        let deltas ← SegmentDeltas.parse subtable
        cmapParseLoop table_cursor n cursor (some (CmapTable.Deltas deltas))
      | some _ => cmapParseLoop table_cursor n cursor this
    else if (platform_id = 0 ∧ encoding_id = 4) ∨ (platform_id = 3 ∧ encoding_id = 10) then
      match this with
      | none => do
        let subtable ← table_cursor.skip offset
        let coverage ← SegmentedCoverage.parse subtable
        cmapParseLoop table_cursor n cursor (some (CmapTable.Coverage coverage))
      | some _ => cmapParseLoop table_cursor n cursor this
    else cmapParseLoop table_cursor n cursor this -- unsupported table format

/-- `CmapTable::parse`. -/
def CmapTable.parse (cursor : Cursor) : Except ParseError CmapTable := do
  let table_cursor := cursor
  let (_, cursor) ← cursor.readU16Checked fun version =>
    if version ≠ 0 then Except.error (ParseErrorKind.UnexpectedTableVersion version)
    else Except.ok ()
  let (num_tables, cursor) ← cursor.readU16
  let (this, cursor) ← cmapParseLoop table_cursor num_tables cursor none
  match this with
  | some t => Except.ok t
  | none => Except.error (cursor.err ParseErrorKind.NoSupportedCmap)

/-! ### Glyphs (`font/glyph.rs`) -/

/-- `GlyphComponentArgs`. -/
inductive GlyphComponentArgs where
  | U16 (args : Nat)
  | U32 (args : Nat)
  deriving DecidableEq, Repr

/-- `TransformData`. -/
inductive TransformData where
  | NoTransform
  | Scale (val : Nat)
  | TwoScales (x y : Nat)
  | Affine (xx xy yx yy : Nat)
  deriving DecidableEq, Repr

/-- `GlyphComponent`. -/
structure GlyphComponent where
  flags : Nat
  glyph_idx : Nat
  args : GlyphComponentArgs
  transform : TransformData
  deriving DecidableEq, Repr

/-- `Glyph`. -/
inductive Glyph where
  | Empty
  | Simple (bytes : List Nat)
  | Composite (header : List Nat) (components : List GlyphComponent)
      (instructions : List Nat)
  deriving DecidableEq, Repr

/-- `GlyphComponent::new`: one component descriptor; returns the component
and the `MORE_COMPONENTS` flag.  Flag values as in the source:
`ARG_1_AND_2_ARE_WORDS = 0x0001`, `WE_HAVE_A_SCALE = 0x0008`,
`MORE_COMPONENTS = 0x0020`, `WE_HAVE_AN_X_AND_Y_SCALE = 0x0040`,
`WE_HAVE_A_TWO_BY_TWO = 0x0080`. -/
def GlyphComponent.new (cursor : Cursor) :
    Except ParseError (GlyphComponent × Bool × Cursor) := do
  let (flags, cursor) ← cursor.readU16
  let (glyph_idx, cursor) ← cursor.readU16
  let (args, cursor) ←
    if flags &&& 0x0001 ≠ 0 then do
      let (v, cursor) ← cursor.readU32
      Except.ok (GlyphComponentArgs.U32 v, cursor)
    else do
      let (v, cursor) ← cursor.readU16
      Except.ok (GlyphComponentArgs.U16 v, cursor)
  let (transform, cursor) ←
    if flags &&& 0x0008 ≠ 0 then do
      let (v, cursor) ← cursor.readU16
      Except.ok (TransformData.Scale v, cursor)
    else if flags &&& 0x0040 ≠ 0 then do
      let (x, cursor) ← cursor.readU16
      let (y, cursor) ← cursor.readU16
      Except.ok (TransformData.TwoScales x y, cursor)
    else if flags &&& 0x0080 ≠ 0 then do
      let (xx, cursor) ← cursor.readU16
      let (xy, cursor) ← cursor.readU16
      let (yx, cursor) ← cursor.readU16
      let (yy, cursor) ← cursor.readU16
      Except.ok (TransformData.Affine xx xy yx yy, cursor)
    else Except.ok (TransformData.NoTransform, cursor)
  Except.ok ({ flags, glyph_idx, args, transform },
    flags &&& 0x0020 ≠ 0, cursor)

/-- The `while has_more_components` loop of `Glyph::new`, with explicit fuel.
Every successful `GlyphComponent::new` consumes at least 6 bytes, so calling
with fuel `cursor.bytes.length + 1` (as `Glyph.new` does) never exhausts the
fuel; the fuel-0 branch is unreachable and only makes the recursion
structural. -/
def parseComponents : Nat → Cursor → Except ParseError (List GlyphComponent × Cursor)
  | 0, cursor => Except.error (cursor.err ParseErrorKind.UnexpectedEof)
  | fuel + 1, cursor => do
    let (component, has_more, cursor) ← GlyphComponent.new cursor
    if has_more then do
      let (rest, cursor) ← parseComponents fuel cursor
      Except.ok (component :: rest, cursor)
    else Except.ok ([component], cursor)

/-- `Glyph::new`. -/
def Glyph.new (raw : Cursor) : Except ParseError Glyph :=
  if raw.bytes = [] then Except.ok Glyph.Empty
  else do
    let (number_of_contours, cursor) ← raw.readU16
    if 32767 < number_of_contours then do
      -- Composite glyph (`number_of_contours > i16::MAX as u16`)
      let (header, cursor) ← cursor.readByteArray 8
      let (components, cursor) ← parseComponents (cursor.bytes.length + 1) cursor
      Except.ok (Glyph.Composite header components cursor.bytes)
    else Except.ok (Glyph.Simple raw.bytes) -- simple glyph: whole window verbatim

/-- `GlyphWithMetrics`. -/
structure GlyphWithMetrics where
  inner : Glyph
  advance : Nat
  lsb : Nat
  deriving DecidableEq, Repr

/-! ### `hhea`, `hmtx`, `loca` tables and `Font` (`font/mod.rs`) -/

/-- `HheaTable`. -/
structure HheaTable where
  raw : List Nat
  number_of_h_metrics : Nat
  deriving DecidableEq, Repr

/-- `HheaTable::parse`: the table must be exactly 36 bytes;
`numberOfHMetrics` is the final big-endian `u16`.  No further validation of
the field is performed. -/
def HheaTable.parse (cursor : Cursor) : Except ParseError HheaTable :=
  if cursor.bytes.length ≠ 36 then
    Except.error (cursor.err (ParseErrorKind.UnexpectedTableLen 36 cursor.bytes.length))
  else
    Except.ok ⟨cursor.bytes, cursor.bytes.getD 34 0 * 256 + cursor.bytes.getD 35 0⟩

/-- `HmtxTable`. -/
structure HmtxTable where
  raw : Cursor
  number_of_h_metrics : Nat
  deriving DecidableEq, Repr

/-- `HmtxTable::advance_and_lsb`.  Result `none` models the debug-build
panic of the `u16` subtraction `self.number_of_h_metrics - 1`, which
underflows whenever `number_of_h_metrics = 0` (every `glyph_idx` then takes
the `else` branch). -/
def HmtxTable.advance_and_lsb (t : HmtxTable) (glyph_idx : Nat) :
    Option (Except ParseError (Nat × Nat)) :=
  if glyph_idx < t.number_of_h_metrics then
    some (do
      let cursor ← t.raw.skip (glyph_idx * 4)
      let (advance, cursor) ← cursor.readU16
      let (lsb, _) ← cursor.readU16
      Except.ok (advance, lsb))
  else if t.number_of_h_metrics = 0 then
    none -- `self.number_of_h_metrics - 1` underflows: panic in debug builds
  else
    some (do
      let read_cursor ← t.raw.skip ((t.number_of_h_metrics - 1) * 4)
      let (advance, _) ← read_cursor.readU16
      let read_cursor ← t.raw.skip
        (t.number_of_h_metrics * 4 + (glyph_idx - t.number_of_h_metrics) * 2)
      let (lsb, _) ← read_cursor.readU16
      Except.ok (advance, lsb))

/-- `LocaFormat::bytes_per_offset`. -/
def LocaFormat.bytes_per_offset : LocaFormat → Nat
  | LocaFormat.Short => 2
  | LocaFormat.Long => 4

/-- `LocaTable` (parse side). -/
structure LocaTable where
  format : LocaFormat
  cursor : Cursor
  deriving DecidableEq, Repr

/-- `LocaTable::new`: the table length must equal
`bytes_per_offset * (glyph_count + 1)`. -/
def LocaTable.new (format : LocaFormat) (glyph_count : Nat) (cursor : Cursor) :
    Except ParseError LocaTable :=
  let expected_len := format.bytes_per_offset * (glyph_count + 1)
  if cursor.bytes.length ≠ expected_len then
    Except.error (cursor.err
      (ParseErrorKind.UnexpectedTableLen expected_len cursor.bytes.length))
  else Except.ok { format, cursor }

/-- `LocaTable::glyph_range`. -/
def LocaTable.glyph_range (t : LocaTable) (glyph_idx : Nat) :
    Except ParseError (Nat × Nat) :=
  match t.format with
  | LocaFormat.Short => do
    let cursor ← t.cursor.skip (glyph_idx * 2)
    let (s, cursor) ← cursor.readU16
    let (e, _) ← cursor.readU16
    Except.ok (s * 2, e * 2)
  | LocaFormat.Long => do
    let cursor ← t.cursor.skip (glyph_idx * 4)
    let (s, cursor) ← cursor.readU32
    let (e, _) ← cursor.readU32
    Except.ok (s, e)

/-- Table tags, modelled as the big-endian `u32` value of the 4 ASCII bytes
(`TableTag([u8; 4])`; byte-array lexicographic order coincides with numeric
order). -/
abbrev TableTag := Nat

namespace TableTag

def CMAP : TableTag := 0x636D6170
def HEAD : TableTag := 0x68656164
def HHEA : TableTag := 0x68686561
def HMTX : TableTag := 0x686D7478
def MAXP : TableTag := 0x6D617870
def NAME : TableTag := 0x6E616D65
def OS2 : TableTag := 0x4F532F32
def POST : TableTag := 0x706F7374
def LOCA : TableTag := 0x6C6F6361
def GLYF : TableTag := 0x676C7966
def CVT : TableTag := 0x63767420
def FPGM : TableTag := 0x6670676D
def PREP : TableTag := 0x70726570

end TableTag

/-- `Font` (crates revision): decoded `cmap`, raw windows for the other
tables, plus the decoded `hhea` / `hmtx` / `loca` views. -/
structure Font where
  cmap : CmapTable
  head : Cursor
  hhea : HheaTable
  hmtx : HmtxTable
  maxp : Cursor
  name : Cursor
  os2 : Cursor
  post : Cursor
  loca : LocaTable
  glyf : Cursor
  cvt : Option Cursor
  fpgm : Option Cursor
  prep : Option Cursor
  deriving DecidableEq, Repr

namespace Font

def SFNT_VERSION : Nat := 0x00010000
def SFNT_CHECKSUM : Nat := 0xB1B0AFBA
def HEAD_CHECKSUM_OFFSET : Nat := 8

/-- `Font::aligned_checksum`: tables must start on a 4-byte boundary. -/
def aligned_checksum (cursor : Cursor) : Except ParseError Nat :=
  if cursor.offset % 4 ≠ 0 then Except.error (cursor.err ParseErrorKind.UnalignedTable)
  else Except.ok (checksum cursor.bytes)

/-- `Font::parse_table_record`: one 16-byte directory record; obtains the
table window from the original buffer and verifies its checksum (for `head`
the stored `checksumAdjustment` is subtracted first).  Result `none` models
the panic of `&table_bytes[8..12]` when a `head` table is shorter than 12
bytes. -/
def parse_table_record (header_cursor : Cursor) (font_bytes : List Nat) :
    Option (Except ParseError ((TableTag × Cursor) × Cursor)) :=
  match header_cursor.readU32 with
  | Except.error e => some (Except.error e)
  | Except.ok (tag, hc) =>
  match hc.readU32 with
  | Except.error e => some (Except.error e)
  | Except.ok (cksum, hc) =>
  match hc.readU32 with
  | Except.error e => some (Except.error e)
  | Except.ok (offset, hc) =>
  match hc.readU32 with
  | Except.error e => some (Except.error e)
  | Except.ok (len, hc) =>
  -- `font_bytes.get(offset..offset + len)`
  if offset + len ≤ font_bytes.length then
    let table_bytes := (font_bytes.drop offset).take len
    let cursor : Cursor := ⟨table_bytes, offset⟩
    match aligned_checksum cursor with
    | Except.error e => some (Except.error e)
    | Except.ok actual =>
      if tag = TableTag.HEAD then
        if table_bytes.length < HEAD_CHECKSUM_OFFSET + 4 then
          none -- `&table_bytes[8..12]` panics
        else
          let adjustment := beWord ((table_bytes.drop HEAD_CHECKSUM_OFFSET).take 4)
          let actual := (actual + (4294967296 - adjustment % 4294967296)) % 4294967296
          if cksum ≠ actual then
            some (Except.error (cursor.err (ParseErrorKind.Checksum cksum actual)))
          else some (Except.ok ((tag, cursor), hc))
      else
        if cksum ≠ actual then
          some (Except.error (cursor.err (ParseErrorKind.Checksum cksum actual)))
        else some (Except.ok ((tag, cursor), hc))
  else
    some (Except.error (hc.err
      (ParseErrorKind.RangeOutOfBounds offset (offset + len) font_bytes.length)))

end Font

/-- Accumulator for the table-record loop of `Font::parse`: one optional
slot per recognized tag. -/
structure FontSlots where
  cmap : Option CmapTable := none
  head : Option Cursor := none
  hhea : Option HheaTable := none
  hmtx : Option Cursor := none
  maxp : Option Cursor := none
  name : Option Cursor := none
  os2 : Option Cursor := none
  post : Option Cursor := none
  loca : Option Cursor := none
  glyf : Option Cursor := none
  cvt : Option Cursor := none
  fpgm : Option Cursor := none
  prep : Option Cursor := none
  deriving DecidableEq, Repr

namespace Font

/-- The `for record in table_records` loop of `Font::parse`. -/
def parseTablesLoop (font_bytes : List Nat) :
    Nat → Cursor → FontSlots → Option (Except ParseError FontSlots)
  | 0, _, slots => some (Except.ok slots)
  | n + 1, header_cursor, slots =>
    match parse_table_record header_cursor font_bytes with
    | none => none
    | some (Except.error e) => some (Except.error e)
    | some (Except.ok ((tag, table_cursor), header_cursor)) =>
      if tag = TableTag.CMAP then
        match CmapTable.parse table_cursor with
        | Except.error e => some (Except.error e)
        | Except.ok cmap =>
          parseTablesLoop font_bytes n header_cursor { slots with cmap := some cmap }
      else if tag = TableTag.HEAD then
        parseTablesLoop font_bytes n header_cursor { slots with head := some table_cursor }
      else if tag = TableTag.HHEA then
        match HheaTable.parse table_cursor with
        | Except.error e => some (Except.error e)
        | Except.ok hhea =>
          parseTablesLoop font_bytes n header_cursor { slots with hhea := some hhea }
      else if tag = TableTag.HMTX then
        parseTablesLoop font_bytes n header_cursor { slots with hmtx := some table_cursor }
      else if tag = TableTag.MAXP then
        parseTablesLoop font_bytes n header_cursor { slots with maxp := some table_cursor }
      else if tag = TableTag.NAME then
        parseTablesLoop font_bytes n header_cursor { slots with name := some table_cursor }
      else if tag = TableTag.OS2 then
        parseTablesLoop font_bytes n header_cursor { slots with os2 := some table_cursor }
      else if tag = TableTag.POST then
        parseTablesLoop font_bytes n header_cursor { slots with post := some table_cursor }
      else if tag = TableTag.LOCA then
        parseTablesLoop font_bytes n header_cursor { slots with loca := some table_cursor }
      else if tag = TableTag.GLYF then
        parseTablesLoop font_bytes n header_cursor { slots with glyf := some table_cursor }
      else if tag = TableTag.CVT then
        parseTablesLoop font_bytes n header_cursor { slots with cvt := some table_cursor }
      else if tag = TableTag.FPGM then
        parseTablesLoop font_bytes n header_cursor { slots with fpgm := some table_cursor }
      else if tag = TableTag.PREP then
        parseTablesLoop font_bytes n header_cursor { slots with prep := some table_cursor }
      else
        parseTablesLoop font_bytes n header_cursor slots -- skip table

/-- `Font::parse_loca_format`: `head` version check, then
`indexToLocFormat` at offset 50. -/
def parse_loca_format (head_cursor : Cursor) : Except ParseError LocaFormat := do
  let (_, head_cursor) ← head_cursor.readU32Checked fun version =>
    if version ≠ 0x00010000 then
      Except.error (ParseErrorKind.UnexpectedTableVersion version)
    else Except.ok ()
  let head_cursor ← head_cursor.skip 46
  let (format, _) ← head_cursor.readU16Checked fun format =>
    match format with
    | 0 => Except.ok LocaFormat.Short
    | 1 => Except.ok LocaFormat.Long
    | _ => Except.error (ParseErrorKind.UnexpectedTableFormat format)
  Except.ok format

/-- `Font::parse_glyph_count`: `maxp` version check, then `numGlyphs`. -/
def parse_glyph_count (maxp_cursor : Cursor) : Except ParseError Nat := do
  let (_, maxp_cursor) ← maxp_cursor.readU32Checked fun version =>
    if version ≠ 0x00005000 ∧ version ≠ 0x00010000 then
      Except.error (ParseErrorKind.UnexpectedTableVersion version)
    else Except.ok ()
  let (num_glyphs, _) ← maxp_cursor.readU16
  Except.ok num_glyphs

/-- Error value for a missing required table
(`ParseError::missing_table`; the tag and zero offset are error context). -/
def missingTable : ParseError := ⟨ParseErrorKind.MissingTable, 0⟩

/-- `Font::parse`.  Result `none` models the `head`-slice panic inside
`parse_table_record`. -/
def parse (bytes : List Nat) : Option (Except ParseError Font) :=
  let cursor : Cursor := ⟨bytes, 0⟩
  match cursor.readU32 with
  | Except.error e => some (Except.error e)
  | Except.ok (sfnt_version, cursor) =>
  if sfnt_version ≠ SFNT_VERSION then
    some (Except.error (cursor.err ParseErrorKind.UnexpectedFontVersion))
  else
  match cursor.readU16 with
  | Except.error e => some (Except.error e)
  | Except.ok (table_count, cursor) =>
  match cursor.skip 6 with -- searchRange, entrySelector, rangeShift
  | Except.error e => some (Except.error e)
  | Except.ok cursor =>
  match parseTablesLoop bytes table_count cursor {} with
  | none => none
  | some (Except.error e) => some (Except.error e)
  | some (Except.ok slots) => some (do
    let head ← match slots.head with
      | some c => Except.ok c
      | none => Except.error missingTable
    let loca_format ← parse_loca_format head
    let maxp ← match slots.maxp with
      | some c => Except.ok c
      | none => Except.error missingTable
    let glyph_count ← parse_glyph_count maxp
    let loca ← match slots.loca with
      | some c => Except.ok c
      | none => Except.error missingTable
    let loca ← LocaTable.new loca_format glyph_count loca
    let hhea ← match slots.hhea with
      | some h => Except.ok h
      | none => Except.error missingTable
    let hmtx ← match slots.hmtx with
      | some c => Except.ok c
      | none => Except.error missingTable
    let hmtx : HmtxTable := { raw := hmtx, number_of_h_metrics := hhea.number_of_h_metrics }
    let cmap ← match slots.cmap with
      | some t => Except.ok t
      | none => Except.error missingTable
    let name ← match slots.name with
      | some c => Except.ok c
      | none => Except.error missingTable
    let os2 ← match slots.os2 with
      | some c => Except.ok c
      | none => Except.error missingTable
    let post ← match slots.post with
      | some c => Except.ok c
      | none => Except.error missingTable
    let glyf ← match slots.glyf with
      | some c => Except.ok c
      | none => Except.error missingTable
    Except.ok ⟨cmap, head, hhea, hmtx, maxp, name, os2, post, loca, glyf, slots.cvt, slots.fpgm, slots.prep⟩)

/-- `Font::map_char`. -/
def map_char (f : Font) (ch : Nat) : Option (Except MapError Nat) :=
  f.cmap.map_char ch

/-- `Font::glyph`: `loca` range, `glyf` window, glyph decode, `hmtx`
metrics.  Result `none` propagates the `advance_and_lsb` debug panic. -/
def glyph (f : Font) (glyph_idx : Nat) : Option (Except ParseError GlyphWithMetrics) :=
  match f.loca.glyph_range glyph_idx with
  | Except.error e => some (Except.error e)
  | Except.ok (rstart, rend) =>
  match f.glyf.range rstart rend with
  | Except.error e => some (Except.error e)
  | Except.ok raw =>
  match Glyph.new raw with
  | Except.error e => some (Except.error e)
  | Except.ok inner =>
  match f.hmtx.advance_and_lsb glyph_idx with
  | none => none
  | some (Except.error e) => some (Except.error e)
  | some (Except.ok (advance, lsb)) => some (Except.ok { inner, advance, lsb })

end Font

/-- `LocaTable::write` from `write/mod.rs`: chooses Short iff every location
is even and the last location is `≤ 0xFFFF * 2`; writes `loc / 2` as `u16`
(Short) or `loc` as `u32` (Long), returning the appended buffer and the
chosen format.  The Long-path `u32::try_from(loc).expect(..)` panic cannot
fire for in-range locations; it is modelled by the `% 2^32` inside `u32BE`. -/
def locaWrite (locations : List Nat) (writer : List Nat) : List Nat × LocaFormat :=
  -- `all_even && in_bounds`: `in_bounds` is `locations.last().is_none_or(|&loc| ...)`
  if (locations.all fun loc => loc % 2 == 0) &&
      (locations.getLast?.all fun loc => loc ≤ 65535 * 2) then
    (writer ++ (locations.map fun loc => u16BE (loc / 2)).flatten, LocaFormat.Short)
  else
    (writer ++ (locations.map fun loc => u32BE loc).flatten, LocaFormat.Long)

/-! ### Subset builder (`subset.rs`) -/

/-- Error of a subsetting step.  `push_char` converts a `MapError` into the
crate's error type via a `From` impl that lives in code absent from `src/`;
the two kinds are therefore kept side by side. -/
inductive SubsetError where
  | parseErr (e : ParseError)
  | mapErr (e : MapError)
  deriving DecidableEq, Repr

/-- Outcome of a subsetting step.  `diverge` means the recursion fuel ran
out: the Rust code has no depth limit, so exhausting every fuel bound models
unbounded recursion.  `panic` propagates a modelled Rust panic. -/
inductive SubsetStep (α : Type) where
  | ok (a : α)
  | err (e : SubsetError)
  | panic
  | diverge
  deriving DecidableEq, Repr

/-- `FontSubset`: retained characters with their new glyph indices, the
old-to-new glyph index map (`BTreeMap`, modelled as an association list
queried with `List.lookup`) and the renumbered glyph list. -/
structure FontSubset where
  font : Font
  char_map : List (Nat × Nat)
  old_to_new_glyph_idx : List (Nat × Nat)
  glyphs : List GlyphWithMetrics
  deriving DecidableEq, Repr

/-- `FontSubset::empty`: glyph 0 is pre-seeded with mapping `0 → 0`. -/
def FontSubset.empty (font : Font) : SubsetStep FontSubset :=
  match font.glyph 0 with
  | none => SubsetStep.panic
  | some (Except.error e) => SubsetStep.err (SubsetError.parseErr e)
  | some (Except.ok empty_glyph) =>
      SubsetStep.ok ⟨font, [], [(0, 0)], [empty_glyph]⟩

mutual

/-- `FontSubset::ensure_glyph`, with explicit recursion fuel (the source
recurses on the composite component graph without any depth bound).  The
`u16::try_from(self.glyphs.len()).expect("too many glyphs")` narrowing
cannot fail (old indices are `u16`, the map is injective, so at most
2^16 entries ever exist); the new index is kept as a plain `Nat`. -/
def ensureGlyph (font : Font) : Nat → FontSubset → Nat → SubsetStep (Nat × FontSubset)
  | 0, _, _ => SubsetStep.diverge
  | fuel + 1, st, old_idx =>
    match st.old_to_new_glyph_idx.lookup old_idx with
    | some new_idx => SubsetStep.ok (new_idx, st)
    | none =>
      match font.glyph old_idx with
      | none => SubsetStep.panic
      | some (Except.error e) => SubsetStep.err (SubsetError.parseErr e)
      | some (Except.ok g) =>
        match g.inner with
        | Glyph.Composite header comps instructions =>
          match ensureComponents font fuel st comps with
          | SubsetStep.diverge => SubsetStep.diverge
          | SubsetStep.panic => SubsetStep.panic
          | SubsetStep.err e => SubsetStep.err e
          | SubsetStep.ok (comps', st) =>
            let new_idx := st.glyphs.length
            SubsetStep.ok (new_idx,
              { st with
                glyphs := st.glyphs ++
                  [⟨Glyph.Composite header comps' instructions, g.advance, g.lsb⟩],
                old_to_new_glyph_idx := (old_idx, new_idx) :: st.old_to_new_glyph_idx })
        | _ =>
          let new_idx := st.glyphs.length
          SubsetStep.ok (new_idx,
            { st with
              glyphs := st.glyphs ++ [g],
              old_to_new_glyph_idx := (old_idx, new_idx) :: st.old_to_new_glyph_idx })

/-- The `for component in components` rewrite loop inside `ensure_glyph`. -/
def ensureComponents (font : Font) :
    Nat → FontSubset → List GlyphComponent → SubsetStep (List GlyphComponent × FontSubset)
  | _, st, [] => SubsetStep.ok ([], st)
  | fuel, st, comp :: rest =>
    match ensureGlyph font fuel st comp.glyph_idx with
    | SubsetStep.diverge => SubsetStep.diverge
    | SubsetStep.panic => SubsetStep.panic
    | SubsetStep.err e => SubsetStep.err e
    | SubsetStep.ok (new_idx, st) =>
      match ensureComponents font fuel st rest with
      | SubsetStep.diverge => SubsetStep.diverge
      | SubsetStep.panic => SubsetStep.panic
      | SubsetStep.err e => SubsetStep.err e
      | SubsetStep.ok (rest', st) =>
        SubsetStep.ok ({ comp with glyph_idx := new_idx } :: rest', st)

end

/-- `FontSubset::push_char`.  Must be called with increasing `ch`. -/
def pushChar (font : Font) (fuel : Nat) (st : FontSubset) (ch : Nat) :
    SubsetStep FontSubset :=
  match font.map_char ch with
  | none => SubsetStep.panic
  | some (Except.error e) => SubsetStep.err (SubsetError.mapErr e)
  | some (Except.ok old_idx) =>
    match ensureGlyph font fuel st old_idx with
    | SubsetStep.diverge => SubsetStep.diverge
    | SubsetStep.panic => SubsetStep.panic
    | SubsetStep.err e => SubsetStep.err e
    | SubsetStep.ok (new_idx, st) =>
      SubsetStep.ok { st with char_map := st.char_map ++ [(ch, new_idx)] }

/-- The `for &ch in distinct_chars` loop of `FontSubset::new`
(a `BTreeSet` iterates in ascending order). -/
def pushChars (font : Font) (fuel : Nat) :
    FontSubset → List Nat → SubsetStep FontSubset
  | st, [] => SubsetStep.ok st
  | st, ch :: rest =>
    match pushChar font fuel st ch with
    | SubsetStep.diverge => SubsetStep.diverge
    | SubsetStep.panic => SubsetStep.panic
    | SubsetStep.err e => SubsetStep.err e
    | SubsetStep.ok st => pushChars font fuel st rest

/-- `FontSubset::new`: start from `empty`, then push every retained
character. -/
def FontSubset.new (font : Font) (distinct_chars : List Nat) (fuel : Nat) :
    SubsetStep FontSubset :=
  match FontSubset.empty font with
  | SubsetStep.diverge => SubsetStep.diverge
  | SubsetStep.panic => SubsetStep.panic
  | SubsetStep.err e => SubsetStep.err e
  | SubsetStep.ok st => pushChars font fuel st distinct_chars

/-! ### Serialization (`write/mod.rs`).

Buffer-appending functions take the buffer (Rust `&mut Vec<u8>`) and return
the extended buffer.  `u16`/`u32` narrowings guarded by `try_into().expect`
in the source (which cannot fail on code-reachable values, per the source's
own comments) are modelled by the reductions inside `u16BE`/`u32BE`. -/

/-- `write_u16`. -/
def writeU16 (writer : List Nat) (value : Nat) : List Nat := writer ++ u16BE value

/-- `write_u32`. -/
def writeU32 (writer : List Nat) (value : Nat) : List Nat := writer ++ u32BE value

/-- The coalescing loop of `CmapTable::create_coverage`: `groups` is the
accumulator, `current_group` the group being extended. -/
def coverageLoop (current : SequentialMapGroup) (groups : List SequentialMapGroup) :
    List (Nat × Nat) → SegmentedCoverage
  | [] => ⟨groups ++ [current]⟩
  | (ch, glyph_idx) :: rest =>
    if ch = current.end_char_code + 1 ∧ glyph_idx = current.map_unchecked ch then
      coverageLoop { current with end_char_code := current.end_char_code + 1 } groups rest
    else
      coverageLoop ⟨ch, ch, glyph_idx⟩ (groups ++ [current]) rest

/-- `CmapTable::create_coverage`. -/
def CmapTable.create_coverage (map : List (Nat × Nat)) : SegmentedCoverage :=
  match map with
  | [] => ⟨[]⟩ -- `SegmentedCoverage::default()`
  | (first_char, first_idx) :: rest =>
    coverageLoop ⟨first_char, first_char, first_idx⟩ [] rest

/-- The format-4 sentinel segment appended by `from_map`. -/
def sentinelSegment : SegmentWithDelta := ⟨0xFFFF, 0xFFFF, 1, 0⟩

/-- The group-to-segment translation inside `from_map`: the `as u16` casts
are modelled `% 2^16` (safe per the `can_be_encoded_as_deltas` check), and
`id_delta = (start_glyph_id as u16).wrapping_sub(start_code)`. -/
def groupToSegment (group : SequentialMapGroup) : SegmentWithDelta :=
  let start_code := group.start_char_code % 65536
  ⟨start_code, group.end_char_code % 65536,
    (group.start_glyph_id % 65536 + 65536 - start_code) % 65536, 0⟩

/-- `CmapTable::from_map`: encode as format 4 (`Deltas`) iff the last
(maximal) retained char is strictly below `u16::MAX`; translation casts the
group bounds with `as u16` (modelled `% 2^16`) and computes
`id_delta = start_glyph_id.wrapping_sub(start_code)`. -/
def CmapTable.from_map (map : List (Nat × Nat)) : CmapTable :=
  let coverage := CmapTable.create_coverage map
  -- `map.last().is_none_or(|&(ch, _)| u32::from(ch) < u32::from(u16::MAX))`
  let can_be_encoded_as_deltas := match map.getLast? with
    | none => true
    | some (ch, _) => ch < 65535
  if can_be_encoded_as_deltas then
    CmapTable.Deltas ⟨coverage.groups.map groupToSegment ++ [sentinelSegment], []⟩
  else CmapTable.Coverage coverage

/-- Fuel-driven floor base-2 logarithm; see `ilog2`. -/
def ilog2Aux : Nat → Nat → Nat
  | 0, _ => 0
  | fuel + 1, n => if 2 ≤ n then ilog2Aux fuel (n / 2) + 1 else 0

/-- `u32::ilog2` as used by the writers.  `Nat.log2` is defined by
well-founded recursion and does not reduce definitionally; this fuel
variant computes the same value (`ilog2_eq_log2`) and evaluates. -/
def ilog2 (n : Nat) : Nat := ilog2Aux n n

theorem ilog2Aux_eq : ∀ fuel n, n ≤ fuel → ilog2Aux fuel n = Nat.log2 n := by
  intro fuel
  induction fuel with
  | zero =>
    intro n h
    have hn : n = 0 := by omega
    subst hn
    rw [ilog2Aux, Nat.log2]
    simp
  | succ fuel ih =>
    intro n h
    rw [ilog2Aux, Nat.log2]
    by_cases h2 : 2 ≤ n
    · rw [if_pos h2, if_pos h2, ih (n / 2) (by omega)]
    · rw [if_neg h2, if_neg h2]

theorem ilog2_eq_log2 (n : Nat) : ilog2 n = Nat.log2 n :=
  ilog2Aux_eq n n (le_refl n)

/-- `SegmentDeltas::subtable_len`. -/
def SegmentDeltas.subtable_len (d : SegmentDeltas) : Nat := 16 + 8 * d.segments.length

/-- `SegmentDeltas::write`.  `segment_count.ilog2()` panics in Rust on an
empty segment list; subset-produced subtables always contain the sentinel,
so `ilog2 0 = 0` here is never observed in a code-reachable state. -/
def SegmentDeltas.write (d : SegmentDeltas) (writer : List Nat) : List Nat :=
  let writer := writeU16 writer 4 -- subtable format
  let writer := writeU16 writer d.subtable_len
  let writer := writeU16 writer 0 -- language
  let segment_count := d.segments.length
  let writer := writeU16 writer (2 * segment_count)
  let entry_selector := ilog2 segment_count
  let search_range := 2 ^ (entry_selector + 1)
  let writer := writeU16 writer search_range
  let writer := writeU16 writer entry_selector
  let range_shift := 2 * segment_count - search_range
  let writer := writeU16 writer range_shift
  let writer := d.segments.foldl (fun w s => writeU16 w s.end_code) writer
  let writer := writeU16 writer 0 -- reserved padding
  let writer := d.segments.foldl (fun w s => writeU16 w s.start_code) writer
  let writer := d.segments.foldl (fun w s => writeU16 w s.id_delta) writer
  let writer := d.segments.foldl (fun w s => writeU16 w s.id_range_offset) writer
  writer ++ d.glyph_id_array

/-- `SegmentedCoverage::subtable_len`. -/
def SegmentedCoverage.subtable_len (c : SegmentedCoverage) : Nat :=
  16 + 12 * c.groups.length

/-- `SegmentedCoverage::write`. -/
def SegmentedCoverage.write (c : SegmentedCoverage) (writer : List Nat) : List Nat :=
  let writer := writeU16 writer 12 -- subtable format
  let writer := writeU16 writer 0 -- reserved
  let writer := writeU32 writer c.subtable_len
  let writer := writeU32 writer 0 -- language
  let writer := writeU32 writer c.groups.length
  c.groups.foldl
    (fun w g => writeU32 (writeU32 (writeU32 w g.start_char_code) g.end_char_code)
      g.start_glyph_id)
    writer

/-- `CmapTable::write`: directory with `version = 0`, `numTables = 1`, one
record `(platform 0, encoding 3 or 4, subtableOffset 12)`, then the
subtable body. -/
def CmapTable.write (t : CmapTable) (writer : List Nat) : List Nat :=
  let writer := writeU16 writer 0 -- table version
  let writer := writeU16 writer 1 -- num_tables
  let writer := writeU16 writer 0 -- UNICODE_PLATFORM
  let encoding_id := match t with
    | CmapTable.Deltas _ => 3
    | CmapTable.Coverage _ => 4
  let writer := writeU16 writer encoding_id
  let writer := writeU32 writer 12 -- subtable_offset
  match t with
  | CmapTable.Deltas deltas => deltas.write writer
  | CmapTable.Coverage coverage => coverage.write writer

instance : Inhabited GlyphWithMetrics := ⟨⟨Glyph.Empty, 0, 0⟩⟩

/-- The `while let Some([prev, current]) = glyphs[..n].last_chunk::<2>()`
shrink loop of `HmtxTable::write_for_glyphs`: starting from
`n = glyphs.len()`, decrement `n` while the two glyphs at `n-2`, `n-1`
share the same advance. -/
def hmtxShrink (glyphs : List GlyphWithMetrics) : Nat → Nat
  | 0 => 0
  | 1 => 1
  | n + 2 =>
    if (glyphs.getD n default).advance = (glyphs.getD (n + 1) default).advance then
      hmtxShrink glyphs (n + 1)
    else n + 2

/-- `HmtxTable::write_for_glyphs`: returns the appended buffer and the new
`numberOfHMetrics` (the final `try_into().unwrap()` cannot fail:
`number_of_h_metrics ≤ glyphs.len() ≤ u16::MAX`). -/
def HmtxTable.write_for_glyphs (glyphs : List GlyphWithMetrics) (writer : List Nat) :
    List Nat × Nat :=
  let number_of_h_metrics := hmtxShrink glyphs glyphs.length
  (glyphs.enum.foldl
    (fun w (ig : Nat × GlyphWithMetrics) =>
      if ig.1 < number_of_h_metrics then writeU16 (writeU16 w ig.2.advance) ig.2.lsb
      else writeU16 w ig.2.lsb)
    writer, number_of_h_metrics)

/-- `HheaTable::write`: the original 34 bytes, then the new
`numberOfHMetrics` (parsed tables are exactly 36 bytes, so `&raw[..34]`
cannot panic). -/
def HheaTable.write (t : HheaTable) (writer : List Nat) : List Nat :=
  writeU16 (writer ++ t.raw.take 34) t.number_of_h_metrics

/-- `GlyphComponent::write`. -/
def GlyphComponent.write (c : GlyphComponent) (writer : List Nat) : List Nat :=
  let writer := writeU16 writer c.flags
  let writer := writeU16 writer c.glyph_idx
  let writer := match c.args with
    | GlyphComponentArgs.U16 args => writeU16 writer args
    | GlyphComponentArgs.U32 args => writeU32 writer args
  match c.transform with
  | TransformData.NoTransform => writer
  | TransformData.Scale val => writeU16 writer val
  | TransformData.TwoScales x y => writeU16 (writeU16 writer x) y
  | TransformData.Affine xx xy yx yy =>
    writeU16 (writeU16 (writeU16 (writeU16 writer xx) xy) yx) yy

/-- `Glyph::write`. -/
def Glyph.write (g : Glyph) (writer : List Nat) : List Nat :=
  match g with
  | Glyph.Empty => writer
  | Glyph.Simple bytes => writer ++ bytes
  | Glyph.Composite header components instructions =>
    let writer := writeU16 writer 65535 -- numberOfContours = -1
    let writer := writer ++ header
    let writer := components.foldl (fun w c => c.write w) writer
    writer ++ instructions

/-- `FontSubset::write_head_table`: copy `0..8`, zero the 4-byte
`checksumAdjustment`, copy `12..50`, write `indexToLocFormat`, copy `52..`.
(The Rust slicing panics on a `head` shorter than 52 bytes; parsed fonts
always have at least 54.) -/
def write_head_table (original : List Nat) (loca_format : LocaFormat)
    (writer : List Nat) : List Nat :=
  let writer := writer ++ original.take 8
  let writer := writeU32 writer 0 -- zeroed checksum, adjusted later
  let writer := writer ++ ((original.drop 12).take 38)
  let writer := writeU16 writer (match loca_format with
    | LocaFormat.Short => 0
    | LocaFormat.Long => 1)
  writer ++ original.drop 52

/-- `TableRecord`. -/
structure TableRecord where
  tag : TableTag
  checksum : Nat
  offset : Nat
  length : Nat
  deriving DecidableEq, Repr

/-- `TableRecord::write_opentype` (16 bytes). -/
def TableRecord.write_opentype (r : TableRecord) (writer : List Nat) : List Nat :=
  writeU32 (writeU32 (writeU32 (writer ++ u32BE r.tag) r.checksum) r.offset) r.length

/-- `TableRecord::self_checksum`: wrapping `u32` sum of the four record
fields (each reduced `% 2^32`, matching their `u32` representation). -/
def TableRecord.self_checksum (r : TableRecord) : Nat :=
  (r.tag % 4294967296 + r.checksum % 4294967296 + r.offset % 4294967296 +
    r.length % 4294967296) % 4294967296

/-- Insertion step of the record sort (see `sortRecords`). -/
def insertRec (r : TableRecord) : List TableRecord → List TableRecord
  | [] => [r]
  | x :: xs => if r.tag ≤ x.tag then r :: x :: xs else x :: insertRec r xs

/-- `sort_unstable_by_key(|record| record.tag.0)` on the table records,
modelled as an insertion sort on the numeric tag (the 4 tag bytes compare
lexicographically exactly as the big-endian `u32` does; the unstable sort's
order between equal keys is unspecified, and the writer never emits two
records with the same tag). -/
def sortRecords : List TableRecord → List TableRecord
  | [] => []
  | x :: xs => insertRec x (sortRecords xs)

/-- `FontWriter`: accumulated table records plus the aligned table data
heap. -/
structure FontWriter where
  tables : List TableRecord
  table_data : List Nat
  deriving DecidableEq, Repr

namespace FontWriter

/-- `FontWriter::write_table`.  The Rust method runs a closure against the
data heap; here each call site computes the closure's appended bytes `blob`
(and its return value) separately and passes the bytes in.  Records the
aligned offset, appends `blob`, zero-pads to a 4-byte boundary, and stores
the checksum of the padded slice `table_data[offset..]`. -/
def writeTableBlob (w : FontWriter) (tag : TableTag) (blob : List Nat) : FontWriter :=
  let offset := w.table_data.length
  let length := blob.length
  let zero_padding := if length % 4 > 0 then 4 - length % 4 else 0
  let table_data := w.table_data ++ blob ++ List.replicate zero_padding 0
  let cksum := checksum (table_data.drop offset)
  ⟨w.tables ++ [⟨tag, cksum, offset, length⟩], table_data⟩

/-- `FontWriter::write_sfnt_header` (12 bytes).  `table_count.ilog2()`
panics on an empty table list in Rust; `to_writer` always writes tables. -/
def write_sfnt_header (w : FontWriter) : List Nat :=
  let buffer := writeU32 [] Font.SFNT_VERSION
  let table_count := w.tables.length
  let buffer := writeU16 buffer table_count
  let entry_selector := ilog2 table_count
  let search_range := 2 ^ (4 + entry_selector)
  let buffer := writeU16 buffer search_range
  let buffer := writeU16 buffer entry_selector
  let range_shift := 16 * table_count - search_range
  writeU16 buffer range_shift

/-- `FontWriter::data_offset`. -/
def data_offset (w : FontWriter) : Nat := 12 + w.tables.length * 16

/-- `FontWriter::adjust_data` followed by `patch_head_table`: add the data
offset to every record offset, fold the file checksum, then splice
`0xB1B0AFBA - file_checksum` (wrapping) into the `head` table at its
`checksumAdjustment` offset.  `none` models the
`expect("head table is always present")` panic. -/
def adjust_data (w : FontWriter) (sfnt_header_checksum : Nat) : Option FontWriter :=
  let dataOffset := w.data_offset
  let tables := w.tables.map fun r => { r with offset := r.offset + dataOffset }
  let file_checksum := tables.foldl
    (fun acc r => (acc + r.self_checksum + r.checksum) % 4294967296)
    sfnt_header_checksum
  match tables.find? fun r => r.tag = TableTag.HEAD with
  | none => none
  | some head_record =>
    let checksum_adjustment :=
      (Font.SFNT_CHECKSUM + (4294967296 - file_checksum % 4294967296)) % 4294967296
    -- `checksum_adjustment_offset() - data_offset`
    let patch_offset := head_record.offset + Font.HEAD_CHECKSUM_OFFSET - dataOffset
    some ⟨tables,
      w.table_data.take patch_offset ++ u32BE checksum_adjustment ++
        w.table_data.drop (patch_offset + 4)⟩

/-- `FontWriter::into_opentype`: header, checksum adjustment, tag-sorted
directory, then the table data heap. -/
def into_opentype (w : FontWriter) : Option (List Nat) :=
  let buffer := w.write_sfnt_header
  match w.adjust_data (checksum buffer) with
  | none => none
  | some w =>
    let sorted := sortRecords w.tables
    let buffer := sorted.foldl (fun buf r => r.write_opentype buf) buffer
    some (buffer ++ w.table_data)

end FontWriter

/-- The `locations` list built by the `glyf` closure in `to_writer`:
starts at 0 and records the cumulative byte length after each glyph. -/
def glyphLocations (glyphs : List GlyphWithMetrics) : List Nat :=
  (glyphs.foldl
    (fun (acc : List Nat × Nat) g =>
      let len := acc.2 + (g.inner.write []).length
      (acc.1 ++ [len], len))
    ([0], 0)).1

/-- `FontSubset::to_writer`: write the thirteen tables in source order. -/
def FontSubset.to_writer (s : FontSubset) : FontWriter :=
  let cmap := CmapTable.from_map s.char_map
  let writer : FontWriter := ⟨[], []⟩
  let writer := writer.writeTableBlob TableTag.CMAP (cmap.write [])
  let writer := match s.font.cvt with
    | some cvt => writer.writeTableBlob TableTag.CVT cvt.bytes
    | none => writer
  let writer := match s.font.fpgm with
    | some fpgm => writer.writeTableBlob TableTag.FPGM fpgm.bytes
    | none => writer
  let hmtx := HmtxTable.write_for_glyphs s.glyphs []
  let writer := writer.writeTableBlob TableTag.HMTX hmtx.1
  let number_of_h_metrics := hmtx.2
  let hhea : HheaTable := { s.font.hhea with number_of_h_metrics }
  let writer := writer.writeTableBlob TableTag.HHEA (hhea.write [])
  let maxp := s.font.maxp.bytes
  -- patch `numGlyphs` (u16 at bytes 4..6)
  let writer := writer.writeTableBlob TableTag.MAXP
    (maxp.take 4 ++ u16BE s.glyphs.length ++ maxp.drop 6)
  let writer := writer.writeTableBlob TableTag.NAME s.font.name.bytes
  let writer := writer.writeTableBlob TableTag.OS2 s.font.os2.bytes
  let post := s.font.post.bytes
  -- truncate `post` to version 0x00030000 plus bytes 4..32
  let writer := writer.writeTableBlob TableTag.POST
    (u32BE 0x00030000 ++ (post.drop 4).take 28)
  let writer := match s.font.prep with
    | some prep => writer.writeTableBlob TableTag.PREP prep.bytes
    | none => writer
  let glyf := s.glyphs.foldl (fun buf g => g.inner.write buf) []
  let locations := glyphLocations s.glyphs
  let writer := writer.writeTableBlob TableTag.GLYF glyf
  let loca := locaWrite locations []
  let writer := writer.writeTableBlob TableTag.LOCA loca.1
  let loca_format := loca.2
  writer.writeTableBlob TableTag.HEAD
    (write_head_table s.font.head.bytes loca_format [])

/-- `FontSubset::to_truetype` (also the body of `into_opentype` reached via
`to_opentype`). -/
def FontSubset.to_truetype (s : FontSubset) : Option (List Nat) :=
  s.to_writer.into_opentype

/-! ### Brotli input reader (`write/brotli.rs`) -/

/-- `TableDataReader::read`, one invocation: walk `tables` from
`table_idx`, yielding each record's `table_data[offset - data_offset +
pos .. offset - data_offset + length]` window, filling a buffer of `space`
bytes across table boundaries.  Returns the bytes read and the new
`(table_idx, pos_in_table)` state. -/
def readerRead (w : FontWriter) (dataOffset : Nat) :
    Nat → Nat → Nat → Nat → List Nat × Nat × Nat
  | 0, table_idx, pos_in_table, _ => ([], table_idx, pos_in_table)
  | fuel + 1, table_idx, pos_in_table, space =>
    match w.tables[table_idx]? with
    | none => ([], table_idx, pos_in_table) -- nothing left to read
    | some table =>
      let adjusted_offset := table.offset - dataOffset
      let start_offset := adjusted_offset + pos_in_table
      let end_offset := adjusted_offset + table.length
      let remaining := (w.table_data.drop start_offset).take (end_offset - start_offset)
      if remaining.length < space then
        -- `read_chunk` filled only part of the buffer: move to the next table
        let rest := readerRead w dataOffset fuel (table_idx + 1) 0 (space - remaining.length)
        (remaining ++ rest.1, rest.2)
      else
        (remaining.take space, table_idx, pos_in_table + space)

/-- `TableDataReader::new`'s initial `data_offset`:
`tables.first().map_or(0, |record| record.offset)`. -/
def readerDataOffset (w : FontWriter) : Nat :=
  match w.tables.head? with
  | none => 0
  | some record => record.offset

/-- Repeatedly invoke `read` with a fresh buffer of `chunk` bytes until it
returns 0, concatenating the yielded bytes.  `fuel` bounds the number of
invocations (any fuel beyond the number needed gives the same result). -/
def readerDrain (w : FontWriter) (dataOffset : Nat) :
    Nat → Nat → Nat → Nat → List Nat
  | 0, _, _, _ => []
  | fuel + 1, table_idx, pos_in_table, chunk =>
    -- the inner loop advances `table_idx` every iteration, so fuel
    -- `tables.length + 1` always suffices for one `read` call
    let step := readerRead w dataOffset (w.tables.length + 1) table_idx pos_in_table chunk
    if step.1.length = 0 then []
    else step.1 ++ readerDrain w dataOffset fuel step.2.1 step.2.2 chunk

end FontTools

namespace FontTools

/-! ### C7: Base-128 varint round-trip -/

theorem decode_encode_base128 (v : Nat) (hv : v < 2 ^ 32) :
    decodeBase128 (write_uint_base128 [] v) = v := by
  unfold write_uint_base128 decodeBase128
  rcases lt_or_ge v (2 ^ 7) with h7 | h7
  · rw [if_neg (by omega), if_neg (by omega), if_neg (by omega), if_neg (by omega)]
    simp; omega
  rcases lt_or_ge v (2 ^ 14) with h14 | h14
  · rw [if_neg (by omega), if_neg (by omega), if_neg (by omega), if_pos (by omega)]
    simp; omega
  rcases lt_or_ge v (2 ^ 21) with h21 | h21
  · rw [if_neg (by omega), if_neg (by omega), if_pos (by omega), if_pos (by omega)]
    simp; omega
  rcases lt_or_ge v (2 ^ 28) with h28 | h28
  · rw [if_neg (by omega), if_pos (by omega), if_pos (by omega), if_pos (by omega)]
    simp; omega
  · rw [if_pos (by omega), if_pos (by omega), if_pos (by omega), if_pos (by omega)]
    simp; omega

theorem length_encode_base128 (v : Nat) (hv : v < 2 ^ 32) :
    (write_uint_base128 [] v).length = uint_base128_len v := by
  unfold write_uint_base128 uint_base128_len
  rcases Nat.eq_zero_or_pos v with hz | hp
  · simp [hz]
  · have hne : v ≠ 0 := Nat.pos_iff_ne_zero.mp hp
    rw [if_neg hne]
    rcases lt_or_ge v (2 ^ 7) with h7 | h7
    · have hl : Nat.log2 v < 7 := (Nat.log2_lt hne).mpr h7
      rw [if_neg (by omega), if_neg (by omega), if_neg (by omega), if_neg (by omega)]
      simp; omega
    rcases lt_or_ge v (2 ^ 14) with h14 | h14
    · have hl : Nat.log2 v < 14 := (Nat.log2_lt hne).mpr h14
      have hl2 : 7 ≤ Nat.log2 v := (Nat.le_log2 hne).mpr h7
      rw [if_neg (by omega), if_neg (by omega), if_neg (by omega), if_pos (by omega)]
      simp; omega
    rcases lt_or_ge v (2 ^ 21) with h21 | h21
    · have hl : Nat.log2 v < 21 := (Nat.log2_lt hne).mpr h21
      have hl2 : 14 ≤ Nat.log2 v := (Nat.le_log2 hne).mpr h14
      rw [if_neg (by omega), if_neg (by omega), if_pos (by omega), if_pos (by omega)]
      simp; omega
    rcases lt_or_ge v (2 ^ 28) with h28 | h28
    · have hl : Nat.log2 v < 28 := (Nat.log2_lt hne).mpr h28
      have hl2 : 21 ≤ Nat.log2 v := (Nat.le_log2 hne).mpr h21
      rw [if_neg (by omega), if_pos (by omega), if_pos (by omega), if_pos (by omega)]
      simp; omega
    · have hl : Nat.log2 v < 32 := (Nat.log2_lt hne).mpr hv
      have hl2 : 28 ≤ Nat.log2 v := (Nat.le_log2 hne).mpr h28
      rw [if_pos (by omega), if_pos (by omega), if_pos (by omega), if_pos (by omega)]
      simp; omega

/-- C7: for every `v ∈ [0, 2^32)`, `write_uint_base128` appends exactly
`uint_base128_len v` bytes, decoding them as a big-endian Base-128 varint
yields `v` back, and the golden pairs hold. -/
theorem c7_base128_roundtrip :
    (∀ v : Nat, v < 2 ^ 32 →
      (write_uint_base128 [] v).length = uint_base128_len v ∧
      decodeBase128 (write_uint_base128 [] v) = v) ∧
    write_uint_base128 [] 0 = [0x00] ∧
    write_uint_base128 [] 1 = [0x01] ∧
    write_uint_base128 [] 127 = [0x7F] ∧
    write_uint_base128 [] 128 = [0x81, 0x00] ∧
    write_uint_base128 [] 129 = [0x81, 0x01] ∧
    write_uint_base128 [] 16383 = [0xFF, 0x7F] ∧
    write_uint_base128 [] 16384 = [0x81, 0x80, 0x00] := by
  refine ⟨fun v hv => ⟨length_encode_base128 v hv, decode_encode_base128 v hv⟩, ?_, ?_, ?_, ?_, ?_, ?_, ?_⟩ <;> decide

/-- Witness for C7 at `v = 16385`. -/
theorem c7_base128_roundtrip_witness :
    (write_uint_base128 [] 16385).length = uint_base128_len 16385 ∧
    decodeBase128 (write_uint_base128 [] 16385) = 16385 :=
  c7_base128_roundtrip.1 16385 (by norm_num)

/-! ### C8: `loca` format selection -/

/-- In a `Pairwise (≤)` list, every element is bounded by the last one. -/
theorem le_getLast_of_pairwise {l : List Nat} {last : Nat}
    (hp : l.Pairwise (· ≤ ·)) (hl : l.getLast? = some last) :
    ∀ x ∈ l, x ≤ last := by
  intro x hx
  have hdec : l.dropLast ++ [last] = l := List.dropLast_append_getLast? last hl
  rw [← hdec] at hp hx
  rcases List.mem_append.mp hx with hx | hx
  · exact (List.pairwise_append.mp hp).2.2 x hx last (by simp)
  · simp at hx; omega

/-- C8: for a non-decreasing locations list (as produced by the `glyf`
writer), `LocaTable::write` chooses Short iff every location is even and the
maximum is at most `2 * 0xFFFF`, writing `loc / 2` as `u16` each; otherwise
it chooses Long, writing each location as `u32`. -/
theorem c8_loca_format_selection (locations writer : List Nat)
    (hmono : locations.Pairwise (· ≤ ·)) :
    ((locaWrite locations writer).2 = LocaFormat.Short ↔
      (∀ loc ∈ locations, loc % 2 = 0) ∧ ∀ loc ∈ locations, loc ≤ 2 * 0xFFFF) ∧
    ((locaWrite locations writer).2 = LocaFormat.Short →
      (locaWrite locations writer).1 =
        writer ++ (locations.map fun loc => u16BE (loc / 2)).flatten) ∧
    ((locaWrite locations writer).2 = LocaFormat.Long →
      (locaWrite locations writer).1 =
        writer ++ (locations.map fun loc => u32BE loc).flatten) := by
  have hbound : (locations.getLast?.all fun loc => decide (loc ≤ 65535 * 2)) = true ↔
      ∀ loc ∈ locations, loc ≤ 2 * 0xFFFF := by
    rcases hl : locations.getLast? with _ | last
    · have : locations = [] := by
        cases locations with
        | nil => rfl
        | cons a rest => rw [List.getLast?_eq_getLast_of_ne_nil (List.cons_ne_nil a rest)] at hl; simp at hl
      simp [this]
    · simp only [Option.all_some, decide_eq_true_eq]
      constructor
      · intro hle loc hmem
        exact le_trans (le_getLast_of_pairwise hmono hl loc hmem) hle
      · intro hall
        have hmeml : last ∈ locations := by
          rcases List.mem_getLast?_eq_getLast (x := last) (by rw [hl]; rfl) with ⟨hne, heq⟩
          rw [heq]; exact List.getLast_mem hne
        exact hall last hmeml
  have heven : (locations.all fun loc => loc % 2 == 0) = true ↔
      ∀ loc ∈ locations, loc % 2 = 0 := by
    simp [List.all_eq_true]
  unfold locaWrite
  by_cases hc : ((locations.all fun loc => loc % 2 == 0) &&
      (locations.getLast?.all fun loc => loc ≤ 65535 * 2)) = true
  · rw [if_pos hc]
    rw [Bool.and_eq_true] at hc
    exact ⟨⟨fun _ => ⟨heven.mp hc.1, hbound.mp hc.2⟩, fun _ => rfl⟩, fun _ => rfl,
      fun h => by simp at h⟩
  · rw [if_neg hc]
    refine ⟨⟨fun h => by simp at h, fun ⟨h1, h2⟩ => ?_⟩, fun h => by simp at h, fun _ => rfl⟩
    exact absurd (Bool.and_eq_true .. |>.mpr ⟨heven.mpr h1, hbound.mpr h2⟩) hc

/-- Witness for C8 on `locations = [0, 2, 10]`. -/
theorem c8_loca_format_selection_witness :
    (locaWrite [0, 2, 10] []).2 = LocaFormat.Short ∧
    (locaWrite [0, 2, 10] []).1 = [0, 0, 0, 1, 0, 5] :=
  have h := c8_loca_format_selection [0, 2, 10] [] (by decide)
  have hshort : (locaWrite [0, 2, 10] []).2 = LocaFormat.Short := by decide
  ⟨hshort, by rw [h.2.1 hshort]; decide⟩

/-! ### C3: `cmap` output format selection -/

/-- In a `Pairwise R` list, every element is the last one or `R`-below it. -/
theorem rel_getLast_of_pairwise {α : Type} {R : α → α → Prop} {l : List α} {last : α}
    (hp : l.Pairwise R) (hl : l.getLast? = some last) :
    ∀ x ∈ l, x = last ∨ R x last := by
  intro x hx
  have hdec : l.dropLast ++ [last] = l := List.dropLast_append_getLast? last hl
  rw [← hdec] at hp hx
  rcases List.mem_append.mp hx with hx | hx
  · exact Or.inr ((List.pairwise_append.mp hp).2.2 x hx last (by simp))
  · simp at hx; exact Or.inl hx

/-- C3, counterexample: the retained set `{U+FFFF}` consists only of BMP
characters (`≤ 0xFFFF`), yet `CmapTable::from_map` emits a format-12
(`Coverage`) subtable, because the code's test is `ch < u16::MAX`
(strict). -/
theorem c3_cmap_format_counterexample :
    65535 ≤ 0xFFFF ∧
    CmapTable.from_map [(65535, 0)] =
      CmapTable.Coverage ⟨[⟨65535, 65535, 0⟩]⟩ := by decide

/-- C3, amended: for a non-empty char map sorted strictly by char (as built
by `push_char`), the output is a format-4 subtable ending in the
`{0xFFFF, 0xFFFF, idDelta = 1, idRangeOffset = 0}` sentinel iff every
retained char is strictly below `0xFFFF`; any retained char `≥ 0x10000`
(indeed any retained char `≥ 0xFFFF`) forces format 12. -/
theorem c3_cmap_format_selection_amended (map : List (Nat × Nat))
    (hne : map ≠ [])
    (hsorted : map.Pairwise fun a b => a.1 < b.1) :
    ((∀ p ∈ map, p.1 < 0xFFFF) →
      ∃ deltas, CmapTable.from_map map = CmapTable.Deltas deltas ∧
        deltas.segments.getLast? = some sentinelSegment) ∧
    ((∃ p ∈ map, 0x10000 ≤ p.1) →
      ∃ coverage, CmapTable.from_map map = CmapTable.Coverage coverage) := by
  obtain ⟨last, hlast⟩ : ∃ last, map.getLast? = some last := by
    rcases map with _ | ⟨a, rest⟩
    · exact absurd rfl hne
    · exact ⟨_, List.getLast?_eq_getLast_of_ne_nil (List.cons_ne_nil a rest)⟩
  have hlast_mem : last ∈ map := by
    rcases List.mem_getLast?_eq_getLast (x := last) (by rw [hlast]; rfl) with ⟨h, heq⟩
    rw [heq]; exact List.getLast_mem h
  constructor
  · intro hbmp
    have heq : CmapTable.from_map map = CmapTable.Deltas
        ⟨(CmapTable.create_coverage map).groups.map groupToSegment ++
          [sentinelSegment], []⟩ := by
      unfold CmapTable.from_map
      rw [hlast]
      rcases last with ⟨ch, idx⟩
      simp only []
      rw [if_pos (by simpa using hbmp (ch, idx) hlast_mem)]
    exact ⟨_, heq, List.getLast?_concat _⟩
  · intro ⟨p, hp_mem, hp_large⟩
    have hlarge : 65535 ≤ last.1 := by
      rcases rel_getLast_of_pairwise hsorted hlast p hp_mem with h | h
      · rw [← h]; omega
      · omega
    refine ⟨CmapTable.create_coverage map, ?_⟩
    unfold CmapTable.from_map
    rw [hlast]
    rcases last with ⟨ch, idx⟩
    simp only []
    rw [if_neg (by simp; omega)]

/-- Witness for the amended C3 on `map = [(65, 10), (66, 11)]`. -/
theorem c3_cmap_format_selection_amended_witness :
    ∃ deltas, CmapTable.from_map [(65, 10), (66, 11)] = CmapTable.Deltas deltas ∧
      deltas.segments.getLast? = some sentinelSegment :=
  (c3_cmap_format_selection_amended [(65, 10), (66, 11)] (by decide) (by decide)).1
    (by decide)

/-! ### Concrete test fonts (witness inputs) -/

/-- Pad a table to a 4-byte boundary (layout helper for test fonts). -/
def alignTo4 (l : List Nat) : List Nat :=
  l ++ List.replicate ((4 - l.length % 4) % 4) 0

/-- Build an `sfnt` byte buffer from a table list: 12-byte header, 16-byte
directory records with correct checksums, then the 4-byte-aligned table
data.  (Witness-input construction; not part of the source.) -/
def buildFont (tables : List (TableTag × List Nat)) : List Nat :=
  let n := tables.length
  let dirLen := 12 + 16 * n
  let recs := (tables.foldl
    (fun (acc : List (TableTag × List Nat × Nat) × Nat) t =>
      (acc.1 ++ [(t.1, t.2, acc.2)], acc.2 + (alignTo4 t.2).length))
    ([], dirLen)).1
  let header := u32BE 0x00010000 ++ u16BE n ++ u16BE 0 ++ u16BE 0 ++ u16BE 0
  let directory := recs.flatMap fun r =>
    u32BE r.1 ++ u32BE (checksum r.2.1) ++ u32BE r.2.2 ++ u32BE r.2.1.length
  header ++ directory ++ (recs.flatMap fun r => alignTo4 r.2.1)

/-- A minimal valid `head` table (54 bytes): version `0x00010000`, zero
`checksumAdjustment`, `indexToLocFormat = 0` (Short). -/
def stdHead : List Nat := u32BE 0x00010000 ++ List.replicate 46 0 ++ u16BE 0 ++ u16BE 0

/-- A minimal `maxp` table (version `0x00005000`). -/
def stdMaxp (numGlyphs : Nat) : List Nat := u32BE 0x00005000 ++ u16BE numGlyphs

/-- A 36-byte `hhea` table whose final `u16` is `numberOfHMetrics`. -/
def stdHhea (nhm : Nat) : List Nat := List.replicate 34 0 ++ u16BE nhm

/-! ### C2: format-4 `map_char` panics without a matching segment -/

/-- A format-4 subtable with `segCountX2 = 0`: an empty segment list,
accepted by `SegmentDeltas::parse`. -/
def c2SubtableBytes : List Nat :=
  u16BE 4 ++ u16BE 16 ++ u16BE 0 ++ u16BE 0 ++ u16BE 0 ++ u16BE 0 ++ u16BE 0 ++ u16BE 0

/-- C2: the parser accepts a format-4 subtable with an empty segment list
(no `0xFFFF` sentinel), and `map_char` on it panics (`none` models the
out-of-bounds `self.segments[segment_idx]`) for the in-BMP char `'a'`,
instead of returning `Ok(0)` as the claim states. -/
theorem c2_map_char_panics :
    SegmentDeltas.parse ⟨c2SubtableBytes, 0⟩ = Except.ok ⟨[], []⟩ ∧
    SegmentDeltas.map_char ⟨[], []⟩ 97 = none := by decide

/-! ### C9: format-12 lookup panics on large glyph IDs -/

/-- `cmap` table bytes for a parseable font: a single format-12 subtable
whose only group maps `'A'` to glyph `0x10000`. -/
def c9CmapBytes : List Nat :=
  CmapTable.write (CmapTable.Coverage ⟨[⟨0x41, 0x41, 0x10000⟩]⟩) []

/-- A complete parseable font whose `cmap` is the format-12 subtable
above. -/
def c9FontBytes : List Nat := buildFont
  [(TableTag.CMAP, c9CmapBytes), (TableTag.HEAD, stdHead),
   (TableTag.HHEA, stdHhea 1), (TableTag.HMTX, [0, 0, 0, 0]),
   (TableTag.MAXP, stdMaxp 1), (TableTag.NAME, []), (TableTag.OS2, []),
   (TableTag.POST, []), (TableTag.LOCA, [0, 0, 0, 0]), (TableTag.GLYF, [])]

set_option maxRecDepth 6000 in
/-- C9: `Font::parse` accepts `c9FontBytes`; its `cmap` is a format-12
subtable whose group `{0x41, 0x41, startGlyphID = 0x10000}` covers `'A'`
and violates `startGlyphID + (end − start) ≤ 0xFFFF`; `map_char('A')`
panics (`none` models the `expect` on the `u16` narrowing). -/
theorem c9_format12_lookup_panics :
    (Font.parse c9FontBytes).map (Except.map fun f => (f.cmap, f.map_char 0x41)) =
      some (Except.ok (CmapTable.Coverage ⟨[⟨0x41, 0x41, 0x10000⟩]⟩, none)) := by
  decide

/-! ### C10: `hmtx` lookup underflows when `numberOfHMetrics = 0` -/

/-- `cmap` bytes for the C10 font: a single benign format-12 group mapping
`'A'` to glyph 1 (the C10 claim is independent of the `cmap` contents). -/
def c10CmapBytes : List Nat :=
  CmapTable.write (CmapTable.Coverage ⟨[⟨0x41, 0x41, 1⟩]⟩) []

/-- A complete parseable font whose `hhea` ends with
`numberOfHMetrics = 0`. -/
def c10FontBytes : List Nat := buildFont
  [(TableTag.CMAP, c10CmapBytes), (TableTag.HEAD, stdHead),
   (TableTag.HHEA, stdHhea 0), (TableTag.HMTX, [0, 0, 0, 0]),
   (TableTag.MAXP, stdMaxp 1), (TableTag.NAME, []), (TableTag.OS2, []),
   (TableTag.POST, []), (TableTag.LOCA, [0, 0, 0, 0]), (TableTag.GLYF, [])]

set_option maxRecDepth 6000 in
/-- C10: `Font::parse` accepts a font whose `hhea` ends with
`numberOfHMetrics = 0` (the field is not validated); every metrics lookup
then evaluates `number_of_h_metrics - 1` on a `u16` and underflows
(`none` models the debug-build panic) instead of returning a `ParseError`;
with `numberOfHMetrics ≥ 1` the lookup never reaches the underflow. -/
theorem c10_hmtx_underflow :
    (Font.parse c10FontBytes).map (Except.map fun f => f.hmtx.number_of_h_metrics) =
      some (Except.ok 0) ∧
    (∀ t : HmtxTable, t.number_of_h_metrics = 0 → ∀ idx, t.advance_and_lsb idx = none) ∧
    (∀ t : HmtxTable, 1 ≤ t.number_of_h_metrics → ∀ idx, t.advance_and_lsb idx ≠ none) := by
  refine ⟨by decide, ?_, ?_⟩
  · intro t ht idx
    unfold HmtxTable.advance_and_lsb
    rw [if_neg (by omega), if_pos ht]
  · intro t ht idx
    unfold HmtxTable.advance_and_lsb
    by_cases hlt : idx < t.number_of_h_metrics
    · rw [if_pos hlt]; simp
    · rw [if_neg hlt, if_neg (by omega)]; simp

/-- Witness for C10's universally-quantified parts at a concrete `hmtx`. -/
theorem c10_hmtx_underflow_witness :
    HmtxTable.advance_and_lsb ⟨⟨[], 0⟩, 0⟩ 5 = none :=
  c10_hmtx_underflow.2.1 ⟨⟨[], 0⟩, 0⟩ rfl 5

/-! ### Subset-builder invariants (C4, C5) -/

/-- `List.lookup` only returns entries of the list. -/
theorem lookup_mem {l : List (Nat × Nat)} {k v : Nat} (h : l.lookup k = some v) :
    (k, v) ∈ l := by
  induction l with
  | nil => simp [List.lookup] at h
  | cons p rest ih =>
    rcases p with ⟨k', v'⟩
    simp only [List.lookup] at h
    cases hbeq : (k == k') with
    | true =>
      rw [hbeq] at h
      simp only [Option.some.injEq] at h
      subst h
      have : k = k' := by simpa using hbeq
      subst this
      exact List.mem_cons_self _ _
    | false =>
      rw [hbeq] at h
      exact List.mem_cons_of_mem _ (ih h)

/-- Composite glyphs of `g` reference only indices below `n`. -/
def compOk (g : GlyphWithMetrics) (n : Nat) : Prop :=
  ∀ hdr comps instr, g.inner = Glyph.Composite hdr comps instr →
    ∀ c ∈ comps, c.glyph_idx < n

/-- Invariant of the subset state maintained by `ensure_glyph`:
all mapped new indices are in range, mapped new indices are pairwise
distinct, and every glyph pushed by `ensure_glyph` (i.e. at index ≥ 1)
references only in-range new indices. -/
def SubsetInv (st : FontSubset) : Prop :=
  (∀ p ∈ st.old_to_new_glyph_idx, p.2 < st.glyphs.length) ∧
  (st.old_to_new_glyph_idx.map Prod.snd).Nodup ∧
  (∀ g ∈ st.glyphs.drop 1, compOk g st.glyphs.length)

/-- State extension: `ensure_glyph` only appends glyphs and adds map
entries. -/
def SubsetExt (st st' : FontSubset) : Prop :=
  st.glyphs <+: st'.glyphs ∧
  ∀ p ∈ st.old_to_new_glyph_idx, p ∈ st'.old_to_new_glyph_idx

theorem SubsetExt.refl (st : FontSubset) : SubsetExt st st :=
  ⟨List.prefix_refl _, fun _ h => h⟩

theorem SubsetExt.trans {s1 s2 s3 : FontSubset}
    (h1 : SubsetExt s1 s2) (h2 : SubsetExt s2 s3) : SubsetExt s1 s3 :=
  ⟨h1.1.trans h2.1, fun p hp => h2.2 p (h1.2 p hp)⟩

/-- `compOk` is monotone in the bound. -/
theorem compOk_mono {g : GlyphWithMetrics} {n m : Nat} (h : n ≤ m)
    (hg : compOk g n) : compOk g m := by
  intro hdr comps instr heq c hc
  exact lt_of_lt_of_le (hg hdr comps instr heq c hc) h

/-- `SubsetInv` is preserved by pushing a `compOk`-compatible glyph and
recording a fresh mapping `old ↦ glyphs.length`. -/
theorem SubsetInv.push {st : FontSubset} (inv : SubsetInv st)
    (g : GlyphWithMetrics) (old : Nat) (hg : compOk g (st.glyphs.length + 1)) :
    SubsetInv { st with
      glyphs := st.glyphs ++ [g],
      old_to_new_glyph_idx := (old, st.glyphs.length) :: st.old_to_new_glyph_idx } := by
  obtain ⟨hbound, hnodup, hcomps⟩ := inv
  refine ⟨?_, ?_, ?_⟩
  · intro p hp
    simp only [List.length_append, List.length_singleton]
    rcases List.mem_cons.mp hp with hp | hp
    · subst hp; simp
    · exact lt_of_lt_of_le (hbound p hp) (by omega)
  · simp only [List.map_cons, List.nodup_cons]
    refine ⟨?_, hnodup⟩
    intro hmem
    rcases List.mem_map.mp hmem with ⟨p, hp, hp2⟩
    exact absurd (hp2 ▸ hbound p hp) (by omega)
  · intro g' hg'
    simp only [List.length_append, List.length_singleton]
    have hsub : ((st.glyphs ++ [g]).drop 1) ⊆ st.glyphs.drop 1 ++ [g] := by
      rcases st.glyphs with _ | ⟨a, rest⟩ <;> simp
    rcases List.mem_append.mp (hsub hg') with hmem | hmem
    · exact compOk_mono (by omega) (hcomps g' hmem)
    · simp at hmem; subst hmem
      exact compOk_mono (by omega) hg

/-- Specification of one fuel level: successful `ensure_glyph` /
`ensureComponents` calls preserve the invariant, extend the state, and
return in-range new indices. -/
def EnsureSpec (font : Font) (fuel : Nat) : Prop :=
  (∀ st old idx' st', SubsetInv st →
    ensureGlyph font fuel st old = SubsetStep.ok (idx', st') →
    SubsetInv st' ∧ SubsetExt st st' ∧ idx' < st'.glyphs.length) ∧
  (∀ st comps comps' st', SubsetInv st →
    ensureComponents font fuel st comps = SubsetStep.ok (comps', st') →
    SubsetInv st' ∧ SubsetExt st st' ∧ ∀ c ∈ comps', c.glyph_idx < st'.glyphs.length)

theorem ensure_spec (font : Font) : ∀ fuel, EnsureSpec font fuel := by
  intro fuel
  induction fuel with
  | zero =>
    constructor
    · intro st old idx' st' _ h
      simp [ensureGlyph] at h
    · intro st comps comps' st' inv h
      cases comps with
      | nil =>
        simp only [ensureComponents, SubsetStep.ok.injEq, Prod.mk.injEq] at h
        obtain ⟨h1, h2⟩ := h
        subst h1; subst h2
        exact ⟨inv, SubsetExt.refl st, by simp⟩
      | cons c rest =>
        simp [ensureComponents, ensureGlyph] at h
  | succ fuel ih =>
    have glyph_part : ∀ st old idx' st', SubsetInv st →
        ensureGlyph font (fuel + 1) st old = SubsetStep.ok (idx', st') →
        SubsetInv st' ∧ SubsetExt st st' ∧ idx' < st'.glyphs.length := by
      intro st old idx' st' inv h
      rw [ensureGlyph] at h
      split at h
      · -- map hit: the state is unchanged
        rename_i new_idx hlk
        simp only [SubsetStep.ok.injEq, Prod.mk.injEq] at h
        obtain ⟨h1, h2⟩ := h
        subst h1; subst h2
        exact ⟨inv, SubsetExt.refl st, inv.1 _ (lookup_mem hlk)⟩
      · split at h
        · cases h -- font.glyph panicked
        · cases h -- font.glyph errored
        · rename_i g hg
          split at h
          · -- composite: components are rewritten first
            rename_i hdr comps instr hinner
            split at h
            · cases h
            · cases h
            · cases h
            · rename_i comps' st₁ hcomp
              obtain ⟨hinv₁, hext₁, hbound₁⟩ := ih.2 st comps comps' st₁ inv hcomp
              simp only [SubsetStep.ok.injEq, Prod.mk.injEq] at h
              obtain ⟨h1, h2⟩ := h
              subst h1; subst h2
              refine ⟨SubsetInv.push hinv₁ _ old ?_,
                SubsetExt.trans hext₁ ⟨⟨_, rfl⟩, fun p hp => List.mem_cons_of_mem _ hp⟩,
                by simp⟩
              · intro hdr' comps'' instr' heq c hc
                cases heq
                exact lt_of_lt_of_le (hbound₁ c hc) (by omega)
          · -- Empty or Simple: push the glyph unchanged
            rename_i hinner
            simp only [SubsetStep.ok.injEq, Prod.mk.injEq] at h
            obtain ⟨h1, h2⟩ := h
            subst h1; subst h2
            refine ⟨SubsetInv.push inv g old ?_,
              ⟨⟨[g], rfl⟩, fun p hp => List.mem_cons_of_mem _ hp⟩, by simp⟩
            · intro hdr comps instr heq
              exact absurd heq (hinner hdr comps instr)
    refine ⟨glyph_part, ?_⟩
    intro st comps
    induction comps generalizing st with
    | nil =>
      intro comps' st' inv h
      simp only [ensureComponents, SubsetStep.ok.injEq, Prod.mk.injEq] at h
      obtain ⟨h1, h2⟩ := h
      subst h1; subst h2
      exact ⟨inv, SubsetExt.refl st, by simp⟩
    | cons c rest ihc =>
      intro comps' st' inv h
      rw [ensureComponents] at h
      split at h
      · cases h
      · cases h
      · cases h
      · rename_i new_idx st₁ hg
        obtain ⟨hinv₁, hext₁, hidx₁⟩ := glyph_part st c.glyph_idx new_idx st₁ inv hg
        split at h
        · cases h
        · cases h
        · cases h
        · rename_i rest' st₂ hr
          obtain ⟨hinv₂, hext₂, hbound₂⟩ := ihc st₁ rest' st₂ hinv₁ hr
          simp only [SubsetStep.ok.injEq, Prod.mk.injEq] at h
          obtain ⟨h1, h2⟩ := h
          subst h1; subst h2
          refine ⟨hinv₂, SubsetExt.trans hext₁ hext₂, ?_⟩
          intro c' hc'
          rcases List.mem_cons.mp hc' with hc' | hc'
          · subst hc'
            exact lt_of_lt_of_le hidx₁ (List.IsPrefix.length_le hext₂.1)
          · exact hbound₂ c' hc'

/-- `push_char` preserves the invariant (it only appends to `char_map`
beyond what `ensure_glyph` does). -/
theorem pushChar_spec {font : Font} {fuel : Nat} {st st' : FontSubset} {ch : Nat}
    (inv : SubsetInv st) (h : pushChar font fuel st ch = SubsetStep.ok st') :
    SubsetInv st' ∧ SubsetExt st st' := by
  unfold pushChar at h
  split at h
  · cases h
  · cases h
  · rename_i old_idx hmap
    split at h
    · cases h
    · cases h
    · cases h
    · rename_i new_idx st₁ hg
      obtain ⟨hinv₁, hext₁, _⟩ := (ensure_spec font fuel).1 st old_idx new_idx st₁ inv hg
      simp only [SubsetStep.ok.injEq] at h
      subst h
      exact ⟨hinv₁, hext₁⟩

/-- The `push_char` loop preserves the invariant. -/
theorem pushChars_spec {font : Font} {fuel : Nat} :
    ∀ chars (st st' : FontSubset), SubsetInv st →
      pushChars font fuel st chars = SubsetStep.ok st' →
      SubsetInv st' ∧ SubsetExt st st' := by
  intro chars
  induction chars with
  | nil =>
    intro st st' inv h
    simp only [pushChars, SubsetStep.ok.injEq] at h
    subst h
    exact ⟨inv, SubsetExt.refl st⟩
  | cons ch rest ih =>
    intro st st' inv h
    rw [pushChars] at h
    split at h
    · cases h
    · cases h
    · cases h
    · rename_i st₁ hpush
      obtain ⟨hinv₁, hext₁⟩ := pushChar_spec inv hpush
      obtain ⟨hinv₂, hext₂⟩ := ih st₁ st' hinv₁ h
      exact ⟨hinv₂, SubsetExt.trans hext₁ hext₂⟩

/-- C4, amended: for every successfully constructed subset, `glyphs[0]` is
the source font's glyph 0 (copied verbatim, components unrewritten);
`old_to_new_glyph_idx` is injective; and every composite glyph at index
`≥ 1` (i.e. every glyph added by `ensure_glyph`) references only new
indices `< glyphs.len()`. -/
theorem c4_subset_invariants_amended (font : Font) (chars : List Nat) (fuel : Nat)
    (s : FontSubset) (h : FontSubset.new font chars fuel = SubsetStep.ok s) :
    (∃ g0, font.glyph 0 = some (Except.ok g0) ∧ s.glyphs.head? = some g0) ∧
    (∀ k1 k2 v, s.old_to_new_glyph_idx.lookup k1 = some v →
      s.old_to_new_glyph_idx.lookup k2 = some v → k1 = k2) ∧
    (∀ g ∈ s.glyphs.drop 1, ∀ hdr comps instr,
      g.inner = Glyph.Composite hdr comps instr →
      ∀ c ∈ comps, c.glyph_idx < s.glyphs.length) := by
  unfold FontSubset.new at h
  split at h
  · cases h
  · cases h
  · cases h
  · rename_i st0 hempty
    unfold FontSubset.empty at hempty
    split at hempty
    · cases hempty
    · cases hempty
    · rename_i g0 hg0
      simp only [SubsetStep.ok.injEq] at hempty
      subst hempty
      have inv0 : SubsetInv ⟨font, [], [(0, 0)], [g0]⟩ := by
        refine ⟨?_, by simp, ?_⟩
        · intro p hp
          simp at hp
          subst hp
          simp
        · intro g hg
          simp at hg
      obtain ⟨invS, extS⟩ := pushChars_spec chars _ s inv0 h
      refine ⟨⟨g0, hg0, ?_⟩, ?_, ?_⟩
      · obtain ⟨t, ht⟩ := extS.1
        rw [← ht]
        rfl
      · intro k1 k2 v h1 h2
        have hm1 : (k1, v) ∈ s.old_to_new_glyph_idx := lookup_mem h1
        have hm2 : (k2, v) ∈ s.old_to_new_glyph_idx := lookup_mem h2
        have := List.inj_on_of_nodup_map invS.2.1 hm1 hm2 rfl
        exact congrArg Prod.fst this
      · intro g hg hdr comps instr heq c hc
        exact invS.2.2 g hg hdr comps instr heq c hc

/-- A trivial `Font` used as the fallback of the extraction matches below
(never the value actually produced, as the accompanying theorems show). -/
def fallbackFont : Font :=
  ⟨CmapTable.Coverage ⟨[]⟩, ⟨[], 0⟩, ⟨[], 0⟩, ⟨⟨[], 0⟩, 0⟩, ⟨[], 0⟩, ⟨[], 0⟩,
    ⟨[], 0⟩, ⟨[], 0⟩, ⟨LocaFormat.Short, ⟨[], 0⟩⟩, ⟨[], 0⟩, none, none, none⟩

/-- `glyf` data for the C4 font: glyph 0 is a composite referencing glyph 2
(16 bytes), glyph 1 a 4-byte simple glyph, glyph 2 empty. -/
def c4GlyfBytes : List Nat :=
  u16BE 65535 ++ List.replicate 8 0 ++ u16BE 0 ++ u16BE 2 ++ u16BE 0 ++ [0, 0, 0, 0]

/-- A parseable 3-glyph font whose glyph 0 is a composite referencing
glyph 2; `'A'` maps to glyph 1. -/
def c4FontBytes : List Nat := buildFont
  [(TableTag.CMAP, CmapTable.write (CmapTable.Coverage ⟨[⟨65, 65, 1⟩]⟩) []),
   (TableTag.HEAD, stdHead), (TableTag.HHEA, stdHhea 1),
   (TableTag.HMTX, List.replicate 8 0), (TableTag.MAXP, stdMaxp 3),
   (TableTag.NAME, []), (TableTag.OS2, []), (TableTag.POST, []),
   (TableTag.LOCA, u16BE 0 ++ u16BE 8 ++ u16BE 10 ++ u16BE 10),
   (TableTag.GLYF, c4GlyfBytes)]

/-- The parsed C4 font. -/
def c4Font : Font :=
  match Font.parse c4FontBytes with
  | some (Except.ok f) => f
  | _ => fallbackFont

/-- Glyph 0 of the C4 font: a composite referencing glyph 2. -/
def c4Glyph0 : GlyphWithMetrics :=
  ⟨Glyph.Composite (List.replicate 8 0)
    [⟨0, 2, GlyphComponentArgs.U16 0, TransformData.NoTransform⟩] [], 0, 0⟩

/-- The state after `FontSubset::empty` on the C4 font. -/
def c4St0 : FontSubset := ⟨c4Font, [], [(0, 0)], [c4Glyph0]⟩

/-- The subset of the C4 font retaining `{'A'}` (glyph 1 is simple). -/
def c4Subset : FontSubset :=
  ⟨c4Font, [(65, 1)], [(1, 1), (0, 0)], [c4Glyph0, ⟨Glyph.Simple [0, 0, 0, 0], 0, 0⟩]⟩

set_option maxRecDepth 6000 in
/-- The C4 font parses successfully. -/
theorem c4Font_parse : Font.parse c4FontBytes = some (Except.ok c4Font) := rfl

set_option maxRecDepth 6000 in
/-- Subsetting the C4 font with `{'A'}` succeeds, producing `c4Subset`. -/
theorem c4_new_eval : FontSubset.new c4Font [65] 100 = SubsetStep.ok c4Subset := by
  have hempty : FontSubset.empty c4Font = SubsetStep.ok c4St0 := rfl
  have hmap : c4Font.map_char 65 = some (Except.ok 1) := rfl
  have hglyph1 : c4Font.glyph 1 = some (Except.ok ⟨Glyph.Simple [0, 0, 0, 0], 0, 0⟩) := rfl
  have hensure : ∀ f, ensureGlyph c4Font (f + 1) c4St0 1 =
      SubsetStep.ok (1, ⟨c4Font, [], [(1, 1), (0, 0)],
        [c4Glyph0, ⟨Glyph.Simple [0, 0, 0, 0], 0, 0⟩]⟩) := by
    intro f
    rw [ensureGlyph]
    rw [show List.lookup 1 c4St0.old_to_new_glyph_idx = none from rfl, hglyph1]
    rfl
  have hensure100 : ensureGlyph c4Font 100 c4St0 1 =
      SubsetStep.ok (1, ⟨c4Font, [], [(1, 1), (0, 0)],
        [c4Glyph0, ⟨Glyph.Simple [0, 0, 0, 0], 0, 0⟩]⟩) := by
    have := hensure 99
    norm_num at this
    exact this
  unfold FontSubset.new
  rw [hempty]
  show pushChars c4Font 100 c4St0 [65] = SubsetStep.ok c4Subset
  rw [pushChars]
  have hpush : pushChar c4Font 100 c4St0 65 = SubsetStep.ok c4Subset := by
    simp only [pushChar, hmap, hensure100]
    rfl
  rw [hpush]
  rfl

/-- C4, counterexample: subsetting the parseable font `c4FontBytes` with
retained set `{'A'}` succeeds and yields 2 glyphs, but `glyphs[0]` (copied
verbatim by `FontSubset::empty`, components unrewritten) is a composite
whose component references glyph index 2 `≥ glyphs.len() = 2`, refuting
the claim's closure property for every glyph in `glyphs`. -/
theorem c4_subset_counterexample :
    Font.parse c4FontBytes = some (Except.ok c4Font) ∧
    FontSubset.new c4Font [65] 100 = SubsetStep.ok c4Subset ∧
    c4Subset.glyphs.length = 2 ∧
    (c4Subset.glyphs.getD 0 default).inner =
      Glyph.Composite (List.replicate 8 0)
        [⟨0, 2, GlyphComponentArgs.U16 0, TransformData.NoTransform⟩] [] :=
  ⟨c4Font_parse, c4_new_eval, rfl, rfl⟩

/-- Witness for the amended C4 at the concrete C4 font and subset. -/
theorem c4_subset_invariants_amended_witness :
    ∃ g0, c4Font.glyph 0 = some (Except.ok g0) ∧ c4Subset.glyphs.head? = some g0 :=
  (c4_subset_invariants_amended c4Font [65] 100 c4Subset c4_new_eval).1

/-! ### C5: no composite recursion depth limit -/

/-- If an unmapped glyph is a composite whose first component references
the glyph itself, `ensure_glyph` recurses forever: it diverges for every
fuel bound (the Rust code has no depth limit and overflows the stack). -/
theorem ensureGlyph_self_ref_diverges (font : Font) (st : FontSubset) (idx : Nat)
    (hdr : List Nat) (c : GlyphComponent) (rest : List GlyphComponent)
    (instr : List Nat) (adv lsb : Nat)
    (hlookup : st.old_to_new_glyph_idx.lookup idx = none)
    (hglyph : font.glyph idx =
      some (Except.ok ⟨Glyph.Composite hdr (c :: rest) instr, adv, lsb⟩))
    (hc : c.glyph_idx = idx) :
    ∀ fuel, ensureGlyph font fuel st idx = SubsetStep.diverge := by
  intro fuel
  induction fuel with
  | zero => rw [ensureGlyph]
  | succ fuel ih =>
    simp only [ensureGlyph, ensureComponents, hlookup, hglyph, hc, ih]

/-- `glyf` data for the C5 font: glyph 0 empty, glyph 1 a composite whose
single component references glyph 1 itself. -/
def c5GlyfBytes : List Nat :=
  u16BE 65535 ++ List.replicate 8 0 ++ u16BE 0 ++ u16BE 1 ++ u16BE 0

/-- A parseable 2-glyph font with a self-referential composite glyph 1,
mapped from `'A'`. -/
def c5FontBytes : List Nat := buildFont
  [(TableTag.CMAP, CmapTable.write (CmapTable.Coverage ⟨[⟨65, 65, 1⟩]⟩) []),
   (TableTag.HEAD, stdHead), (TableTag.HHEA, stdHhea 1),
   (TableTag.HMTX, List.replicate 8 0), (TableTag.MAXP, stdMaxp 2),
   (TableTag.NAME, []), (TableTag.OS2, []), (TableTag.POST, []),
   (TableTag.LOCA, u16BE 0 ++ u16BE 0 ++ u16BE 8), (TableTag.GLYF, c5GlyfBytes)]

/-- The parsed C5 font. -/
def c5Font : Font :=
  match Font.parse c5FontBytes with
  | some (Except.ok f) => f
  | _ => fallbackFont

/-- The subset state right after `FontSubset::empty` on the C5 font. -/
def c5St : FontSubset := ⟨c5Font, [], [(0, 0)], [⟨Glyph.Empty, 0, 0⟩]⟩

set_option maxRecDepth 6000 in
/-- The C5 font parses successfully. -/
theorem c5Font_parse : Font.parse c5FontBytes = some (Except.ok c5Font) := rfl

set_option maxRecDepth 6000 in
/-- C5: the font `c5FontBytes` parses successfully, yet subsetting it with
retained set `{'A'}` (whose glyph is the self-referential composite 1)
recurses without bound — for every fuel the run is still unfinished —
instead of returning a parse error: the code has no composite depth
limit. -/
theorem c5_no_depth_limit :
    Font.parse c5FontBytes = some (Except.ok c5Font) ∧
    ∀ fuel, FontSubset.new c5Font [65] fuel = SubsetStep.diverge := by
  refine ⟨c5Font_parse, ?_⟩
  intro fuel
  have hlookup : List.lookup 1 c5St.old_to_new_glyph_idx = none := rfl
  have hglyph : c5Font.glyph 1 = some (Except.ok
      ⟨Glyph.Composite (List.replicate 8 0)
        [⟨0, 1, GlyphComponentArgs.U16 0, TransformData.NoTransform⟩] [], 0, 0⟩) := rfl
  have hdiv := ensureGlyph_self_ref_diverges c5Font c5St 1 (List.replicate 8 0)
    ⟨0, 1, GlyphComponentArgs.U16 0, TransformData.NoTransform⟩ [] [] 0 0
    hlookup hglyph rfl
  have hempty : FontSubset.empty c5Font = SubsetStep.ok c5St := rfl
  have hmap : c5Font.map_char 65 = some (Except.ok 1) := rfl
  have hpc : pushChar c5Font fuel c5St 65 = SubsetStep.diverge := by
    simp only [pushChar, hmap, hdiv fuel]
  unfold FontSubset.new
  rw [hempty]
  show pushChars c5Font fuel c5St [65] = SubsetStep.diverge
  rw [pushChars, hpc]

/-! ### Checksum algebra: `checksum` as a plain word sum modulo `2^32` -/

/-- Unreduced sum of the big-endian `u32` words of `bytes`. -/
def sumWords (bytes : List Nat) : Nat := ((chunks4 bytes).map beWord).sum

theorem checksum_foldl (l : List (List Nat)) : ∀ a : Nat,
    l.foldl (fun acc chunk => (acc + beWord chunk) % 4294967296) (a % 4294967296)
      = (a + (l.map beWord).sum) % 4294967296 := by
  induction l with
  | nil => intro a; simp
  | cons c l ih =>
    intro a
    simp only [List.foldl_cons, List.map_cons, List.sum_cons]
    rw [Nat.mod_add_mod, ih (a + beWord c)]
    omega

theorem checksum_eq_sumWords (bytes : List Nat) :
    checksum bytes = sumWords bytes % 4294967296 := by
  have h := checksum_foldl (chunks4 bytes) 0
  simpa [checksum, sumWords] using h

theorem checksum_lt (bytes : List Nat) : checksum bytes < 4294967296 := by
  rw [checksum_eq_sumWords]; omega

theorem chunks4_append : ∀ (a b : List Nat), a.length % 4 = 0 →
    chunks4 (a ++ b) = chunks4 a ++ chunks4 b
  | [], b, _ => by simp [chunks4]
  | [_], _, h => by simp at h
  | [_, _], _, h => by simp at h
  | [_, _, _], _, h => by simp at h
  | x :: y :: z :: w :: rest, b, h => by
    have hr : rest.length % 4 = 0 := by simp [List.length_cons] at h; omega
    simp only [List.cons_append, chunks4, List.append_eq, chunks4_append rest b hr]

theorem sumWords_append (a b : List Nat) (h : a.length % 4 = 0) :
    sumWords (a ++ b) = sumWords a + sumWords b := by
  simp [sumWords, chunks4_append a b h]

theorem beWord_u32BE (x : Nat) : beWord (u32BE x) = x % 4294967296 := by
  simp only [beWord, u32BE, List.cons_append, List.take, List.foldl]
  omega

theorem sumWords_u32BE (x : Nat) : sumWords (u32BE x) = x % 4294967296 := by
  have h : chunks4 (u32BE x) = [u32BE x] := rfl
  simp [sumWords, h, beWord_u32BE]

theorem u32BE_length (x : Nat) : (u32BE x).length = 4 := rfl

/-- The 16 bytes `TableRecord::write_opentype` emits. -/
def recordBytes (r : TableRecord) : List Nat :=
  u32BE r.tag ++ u32BE r.checksum ++ u32BE r.offset ++ u32BE r.length

theorem write_opentype_eq (r : TableRecord) (buf : List Nat) :
    r.write_opentype buf = buf ++ recordBytes r := by
  simp [TableRecord.write_opentype, writeU32, recordBytes]

theorem recordBytes_length (r : TableRecord) : (recordBytes r).length = 16 := by
  simp [recordBytes, u32BE_length]

theorem sumWords_recordBytes (r : TableRecord) :
    sumWords (recordBytes r) % 4294967296 = r.self_checksum := by
  rw [recordBytes, sumWords_append _ _ (by simp [u32BE_length]),
    sumWords_append _ _ (by simp [u32BE_length]),
    sumWords_append _ _ (by simp [u32BE_length])]
  simp only [sumWords_u32BE, TableRecord.self_checksum]

/-! ### Tiling of the writer's data heap by its table records -/

/-- Zero padding appended after a `length`-byte table to reach a 4-byte
boundary. -/
def padOf (len : Nat) : Nat := if len % 4 > 0 then 4 - len % 4 else 0

theorem padOf_mod (n : Nat) : (n + padOf n) % 4 = 0 := by
  unfold padOf; split <;> omega

/-- `Tiles off rs data`: the records `rs` tile the byte region `data`
(located at absolute offset `off`) exactly as successive
`FontWriter::write_table` calls lay tables out: each record's bytes start
at its recorded offset, run for its recorded length, are followed by zero
padding to a 4-byte boundary, and the recorded checksum is the checksum of
the padded slice. -/
inductive Tiles : Nat → List TableRecord → List Nat → Prop where
  | nil (off : Nat) : Tiles off [] []
  | cons (off : Nat) (tag : TableTag) (blob rest : List Nat) (rs : List TableRecord) :
      Tiles (off + blob.length + padOf blob.length) rs rest →
      Tiles off
        (⟨tag, checksum (blob ++ List.replicate (padOf blob.length) 0), off,
            blob.length⟩ :: rs)
        ((blob ++ List.replicate (padOf blob.length) 0) ++ rest)

theorem Tiles.snoc {off : Nat} {rs : List TableRecord} {data : List Nat}
    (h : Tiles off rs data) (tag : TableTag) (blob : List Nat) :
    Tiles off
      (rs ++ [⟨tag, checksum (blob ++ List.replicate (padOf blob.length) 0),
          off + data.length, blob.length⟩])
      (data ++ (blob ++ List.replicate (padOf blob.length) 0)) := by
  induction h with
  | nil off =>
    simpa using Tiles.cons off tag blob [] [] (Tiles.nil _)
  | cons off tag' blob' rest rs h ih =>
    have hlen : off + ((blob' ++ List.replicate (padOf blob'.length) 0) ++ rest).length
        = off + blob'.length + padOf blob'.length + rest.length := by
      simp [List.length_append]; omega
    rw [List.cons_append, hlen, List.append_assoc]
    exact Tiles.cons off tag' blob' _ _ ih

theorem Tiles.bounds {off : Nat} {rs : List TableRecord} {data : List Nat}
    (h : Tiles off rs data) :
    ∀ r ∈ rs, off ≤ r.offset ∧
      r.offset + r.length + padOf r.length ≤ off + data.length := by
  induction h with
  | nil off => simp
  | cons off tag blob rest rs h ih =>
    intro r hr
    rcases List.mem_cons.mp hr with rfl | hr2
    · simp only [List.length_append, List.length_replicate]
      omega
    · have := ih r hr2
      simp only [List.length_append, List.length_replicate]
      omega

theorem writeTableBlob_eq (w : FontWriter) (tag : TableTag) (blob : List Nat) :
    w.writeTableBlob tag blob =
      ⟨w.tables ++ [⟨tag, checksum (blob ++ List.replicate (padOf blob.length) 0),
          w.table_data.length, blob.length⟩],
        w.table_data ++ (blob ++ List.replicate (padOf blob.length) 0)⟩ := by
  have hdrop : (w.table_data ++ (blob ++ List.replicate (padOf blob.length) 0)).drop
      w.table_data.length = blob ++ List.replicate (padOf blob.length) 0 :=
    List.drop_left _ _
  simp only [FontWriter.writeTableBlob, padOf, gt_iff_lt, List.append_assoc] at hdrop ⊢
  rw [hdrop]

/-- Fold `FontWriter::write_table` over a list of `(tag, appended bytes)`
pairs; `to_writer` is such a fold. -/
def writeBlobs (w : FontWriter) : List (TableTag × List Nat) → FontWriter
  | [] => w
  | tb :: rest => writeBlobs (w.writeTableBlob tb.1 tb.2) rest

theorem writeBlobs_append (w : FontWriter) (l₁ l₂ : List (TableTag × List Nat)) :
    writeBlobs w (l₁ ++ l₂) = writeBlobs (writeBlobs w l₁) l₂ := by
  induction l₁ generalizing w with
  | nil => rfl
  | cons tb rest ih => simp only [List.cons_append, writeBlobs, List.append_eq, ih]

theorem writeBlobs_tiles (l : List (TableTag × List Nat)) : ∀ w : FontWriter,
    Tiles 0 w.tables w.table_data →
      Tiles 0 (writeBlobs w l).tables (writeBlobs w l).table_data := by
  induction l with
  | nil => intro w h; exact h
  | cons tb rest ih =>
    intro w h
    refine ih _ ?_
    rw [writeTableBlob_eq]
    simpa using h.snoc tb.1 tb.2

theorem writeBlobs_tags (l : List (TableTag × List Nat)) : ∀ w : FontWriter,
    (writeBlobs w l).tables.map TableRecord.tag
      = w.tables.map TableRecord.tag ++ l.map Prod.fst := by
  induction l with
  | nil => intro w; simp [writeBlobs]
  | cons tb rest ih =>
    intro w
    rw [writeBlobs, ih, writeTableBlob_eq]
    simp

theorem Tiles.window {off : Nat} {rs : List TableRecord} {data : List Nat}
    (h : Tiles off rs data) :
    ∀ r ∈ rs, ∃ blob : List Nat, r.length = blob.length ∧
      r.checksum = checksum (blob ++ List.replicate (padOf blob.length) 0) ∧
      (data.drop (r.offset - off)).take (r.length + padOf r.length)
        = blob ++ List.replicate (padOf blob.length) 0 := by
  induction h with
  | nil off => simp
  | cons off tag blob rest rs h ih =>
    intro r hr
    rcases List.mem_cons.mp hr with rfl | hr2
    · refine ⟨blob, rfl, rfl, ?_⟩
      simp only [Nat.sub_self, List.drop_zero]
      rw [show blob.length + padOf blob.length
          = (blob ++ List.replicate (padOf blob.length) 0).length by simp]
      exact List.take_left _ _
    · obtain ⟨blob', h1, h2, h3⟩ := ih r hr2
      refine ⟨blob', h1, h2, ?_⟩
      have hb := (h.bounds r hr2).1
      rw [show r.offset - off
          = (blob ++ List.replicate (padOf blob.length) 0).length
            + (r.offset - (off + blob.length + padOf blob.length)) by simp; omega,
        List.drop_append]
      exact h3

theorem Tiles.window_exact {off : Nat} {rs : List TableRecord} {data : List Nat}
    (h : Tiles off rs data) :
    ∀ r ∈ rs, ∃ blob : List Nat, r.length = blob.length ∧
      r.checksum = checksum (blob ++ List.replicate (padOf blob.length) 0) ∧
      (data.drop (r.offset - off)).take r.length = blob := by
  intro r hr
  obtain ⟨blob, h1, h2, h3⟩ := h.window r hr
  refine ⟨blob, h1, h2, ?_⟩
  have : (data.drop (r.offset - off)).take r.length
      = ((data.drop (r.offset - off)).take (r.length + padOf r.length)).take r.length := by
    rw [List.take_take]
    congr 1
    omega
  rw [this, h3, h1]
  exact List.take_left _ _

theorem Tiles.len_sum {off : Nat} {rs : List TableRecord} {data : List Nat}
    (h : Tiles off rs data) : (rs.map TableRecord.length).sum ≤ data.length := by
  induction h with
  | nil off => simp
  | cons off tag blob rest rs h ih =>
    simp only [List.map_cons, List.sum_cons, List.length_append, List.length_replicate]
    omega

theorem Tiles.checksum_sum {off : Nat} {rs : List TableRecord} {data : List Nat}
    (h : Tiles off rs data) :
    (rs.map TableRecord.checksum).sum % 4294967296 = sumWords data % 4294967296 := by
  induction h with
  | nil off => simp [sumWords, chunks4]
  | cons off tag blob rest rs h ih =>
    simp only [List.map_cons, List.sum_cons]
    rw [sumWords_append _ _ (by simp [padOf_mod]), checksum_eq_sumWords]
    omega

theorem Tiles.offsets_mod4 {off : Nat} {rs : List TableRecord} {data : List Nat}
    (h : Tiles off rs data) (hoff : off % 4 = 0) :
    ∀ r ∈ rs, r.offset % 4 = 0 := by
  induction h with
  | nil off => simp
  | cons off tag blob rest rs h ih =>
    intro r hr
    rcases List.mem_cons.mp hr with rfl | hr2
    · exact hoff
    · refine ih ?_ r hr2
      have := padOf_mod blob.length
      omega

/-! ### `to_writer` as a blob fold -/

/-- The `(tag, bytes)` pairs `to_writer` writes before the final `head`
table, in source order. -/
def subsetPre (s : FontSubset) : List (TableTag × List Nat) :=
  let cmap := CmapTable.from_map s.char_map
  let hmtx := HmtxTable.write_for_glyphs s.glyphs []
  let hhea : HheaTable := { s.font.hhea with number_of_h_metrics := hmtx.2 }
  let maxp := s.font.maxp.bytes
  let post := s.font.post.bytes
  [(TableTag.CMAP, cmap.write [])] ++
  (match s.font.cvt with
    | some cvt => [(TableTag.CVT, cvt.bytes)]
    | none => []) ++
  (match s.font.fpgm with
    | some fpgm => [(TableTag.FPGM, fpgm.bytes)]
    | none => []) ++
  [(TableTag.HMTX, hmtx.1), (TableTag.HHEA, hhea.write []),
   (TableTag.MAXP, maxp.take 4 ++ u16BE s.glyphs.length ++ maxp.drop 6),
   (TableTag.NAME, s.font.name.bytes), (TableTag.OS2, s.font.os2.bytes),
   (TableTag.POST, u32BE 0x00030000 ++ (post.drop 4).take 28)] ++
  (match s.font.prep with
    | some prep => [(TableTag.PREP, prep.bytes)]
    | none => []) ++
  [(TableTag.GLYF, s.glyphs.foldl (fun buf g => g.inner.write buf) []),
   (TableTag.LOCA, (locaWrite (glyphLocations s.glyphs) []).1)]

/-- The bytes `to_writer` appends for the `head` table. -/
def headBlob (s : FontSubset) : List Nat :=
  write_head_table s.font.head.bytes (locaWrite (glyphLocations s.glyphs) []).2 []

/-- All thirteen `(tag, bytes)` pairs of `to_writer`, `head` last. -/
def subsetBlobs (s : FontSubset) : List (TableTag × List Nat) :=
  subsetPre s ++ [(TableTag.HEAD, headBlob s)]

theorem to_writer_eq (s : FontSubset) :
    s.to_writer = writeBlobs ⟨[], []⟩ (subsetBlobs s) := by
  cases hcvt : s.font.cvt <;> cases hfpgm : s.font.fpgm <;> cases hprep : s.font.prep <;>
    simp only [FontSubset.to_writer, subsetBlobs, subsetPre, headBlob, writeBlobs,
      List.cons_append, List.nil_append, List.append_assoc, List.singleton_append,
      hcvt, hfpgm, hprep]

theorem to_writer_tiles (s : FontSubset) :
    Tiles 0 s.to_writer.tables s.to_writer.table_data := by
  rw [to_writer_eq]
  exact writeBlobs_tiles _ ⟨[], []⟩ (Tiles.nil 0)

/-! ### What the brotli input reader yields (`write/brotli.rs`) -/

/-- Bytes still to be yielded by the reader from state
`(table_idx, pos_in_table) = (idx, pos)`: the concatenated unpadded
`table_data` windows of the records from `idx` on, minus the first `pos`
bytes (meaningful when `pos` is at most the `idx`-th window's length). -/
def remFrom (w : FontWriter) (idx pos : Nat) : List Nat :=
  (((w.tables.drop idx).map fun r =>
      (w.table_data.drop r.offset).take r.length).flatten).drop pos

theorem readerRead_spec (w : FontWriter)
    (hw : ∀ r ∈ w.tables, r.offset + r.length ≤ w.table_data.length) :
    ∀ fuel idx pos space, w.tables.length - idx < fuel →
      (∀ t, w.tables[idx]? = some t → pos ≤ t.length) →
      (readerRead w 0 fuel idx pos space).1 = (remFrom w idx pos).take space ∧
        remFrom w (readerRead w 0 fuel idx pos space).2.1
            (readerRead w 0 fuel idx pos space).2.2
          = (remFrom w idx pos).drop space ∧
        (∀ t, w.tables[(readerRead w 0 fuel idx pos space).2.1]? = some t →
          (readerRead w 0 fuel idx pos space).2.2 ≤ t.length) := by
  intro fuel
  induction fuel with
  | zero => intro idx pos space h hpos; omega
  | succ fuel ih =>
    intro idx pos space hfuel hpos
    cases htbl : w.tables[idx]? with
    | none =>
      have hlen : w.tables.length ≤ idx := List.getElem?_eq_none_iff.mp htbl
      have hrem : remFrom w idx pos = [] := by
        simp [remFrom, List.drop_eq_nil_of_le hlen]
      refine ⟨?_, ?_, ?_⟩ <;> simp [readerRead, htbl, hrem]
    | some t =>
      have hmem : t ∈ w.tables := List.getElem?_mem htbl
      obtain ⟨hidx, hget⟩ := List.getElem?_eq_some_iff.mp htbl
      have hb := hw t hmem
      have hposle := hpos t htbl
      have hWlen : ((w.table_data.drop t.offset).take t.length).length = t.length := by
        simp only [List.length_take, List.length_drop]
        omega
      have hdecomp : remFrom w idx pos
          = ((w.table_data.drop t.offset).take t.length).drop pos
            ++ remFrom w (idx + 1) 0 := by
        rw [remFrom, List.drop_eq_getElem_cons hidx, hget]
        simp only [List.map_cons, List.flatten_cons]
        rw [List.drop_append_eq_append_drop,
          show pos - ((w.table_data.drop t.offset).take t.length).length = 0 by omega,
          List.drop_zero]
        simp [remFrom]
      have hrm : (w.table_data.drop (t.offset + pos)).take
          (t.offset + t.length - (t.offset + pos))
          = ((w.table_data.drop t.offset).take t.length).drop pos := by
        rw [show t.offset + t.length - (t.offset + pos) = t.length - pos by omega,
          List.drop_take, List.drop_drop]
      simp only [readerRead, htbl, Nat.sub_zero]
      rw [hrm]
      by_cases hsp : (((w.table_data.drop t.offset).take t.length).drop pos).length < space
      · rw [if_pos hsp]
        dsimp only
        have hf2 : w.tables.length - (idx + 1) < fuel := by omega
        have hpos1 : ∀ t', w.tables[idx + 1]? = some t' → 0 ≤ t'.length :=
          fun _ _ => Nat.zero_le _
        obtain ⟨ih1, ih2, ih3⟩ := ih (idx + 1) 0
          (space - (((w.table_data.drop t.offset).take t.length).drop pos).length) hf2 hpos1
        have hle : (((w.table_data.drop t.offset).take t.length).drop pos).length ≤ space :=
          Nat.le_of_lt hsp
        refine ⟨?_, ?_, ih3⟩
        · rw [ih1, hdecomp, List.take_append_eq_append_take, List.take_of_length_le hle]
        · rw [ih2, hdecomp, List.drop_append_eq_append_drop, List.drop_eq_nil_of_le hle,
            List.nil_append]
      · rw [if_neg hsp]
        dsimp only
        refine ⟨?_, ?_, ?_⟩
        · rw [hdecomp, List.take_append_eq_append_take,
            show space - (((w.table_data.drop t.offset).take t.length).drop pos).length = 0
              by omega,
            List.take_zero, List.append_nil]
        · show remFrom w idx (pos + space) = (remFrom w idx pos).drop space
          rw [remFrom, remFrom, List.drop_drop]
        · intro t' ht'
          rw [htbl] at ht'
          cases ht'
          have hdl : (((w.table_data.drop t.offset).take t.length).drop pos).length
              = t.length - pos := by
            simp only [List.length_drop, hWlen]
          omega

theorem readerDrain_spec (w : FontWriter)
    (hw : ∀ r ∈ w.tables, r.offset + r.length ≤ w.table_data.length) :
    ∀ fuel idx pos chunk, 1 ≤ chunk →
      (∀ t, w.tables[idx]? = some t → pos ≤ t.length) →
      (remFrom w idx pos).length < fuel →
      readerDrain w 0 fuel idx pos chunk = remFrom w idx pos := by
  intro fuel
  induction fuel with
  | zero => intro idx pos chunk hc hpos hlt; omega
  | succ fuel ih =>
    intro idx pos chunk hc hpos hlt
    obtain ⟨h1, h2, h3⟩ :=
      readerRead_spec w hw (w.tables.length + 1) idx pos chunk (by omega) hpos
    rw [readerDrain, h1]
    by_cases hz : remFrom w idx pos = []
    · rw [hz]
      simp
    · have hlen : 0 < (remFrom w idx pos).length := List.length_pos.mpr hz
      rw [if_neg (by simp only [List.length_take]; omega)]
      rw [ih _ _ chunk hc h3 (by rw [h2]; simp only [List.length_drop]; omega), h2,
        List.take_append_drop]

theorem to_writer_dataOffset (s : FontSubset) : readerDataOffset s.to_writer = 0 := by
  have ht := to_writer_tiles s
  generalize s.to_writer.table_data = data at ht
  unfold readerDataOffset
  cases hc : s.to_writer.tables with
  | nil => rfl
  | cons r rs =>
    rw [hc] at ht
    cases ht
    simp

theorem remFrom_length (s : FontSubset) :
    (remFrom s.to_writer 0 0).length ≤ s.to_writer.table_data.length := by
  rw [remFrom]
  simp only [List.drop_zero, List.length_flatten, List.map_map]
  refine le_trans (List.sum_le_sum ?_) (to_writer_tiles s).len_sum
  intro r hr
  simp only [Function.comp_apply, List.length_take]
  exact min_le_left _ _

/-- C6 (amended): for every subset-produced writer and every positive chunk
size, draining `TableDataReader::read` yields exactly the concatenation of
the records' unpadded `table_data[offset .. offset + length]` windows — the
inter-table zero padding of `table_data` is dropped, so the result is the
windows' concatenation rather than the entire `table_data` buffer. -/
theorem c6_reader_yields_windows (s : FontSubset) (chunk fuel : Nat)
    (hchunk : 1 ≤ chunk) (hfuel : s.to_writer.table_data.length < fuel) :
    readerDrain s.to_writer (readerDataOffset s.to_writer) fuel 0 0 chunk
      = (s.to_writer.tables.map fun r =>
          (s.to_writer.table_data.drop r.offset).take r.length).flatten := by
  have ht := to_writer_tiles s
  have hw : ∀ r ∈ s.to_writer.tables,
      r.offset + r.length ≤ s.to_writer.table_data.length := by
    intro r hr
    have := (ht.bounds r hr).2
    omega
  have hrb := remFrom_length s
  rw [to_writer_dataOffset,
    readerDrain_spec s.to_writer hw fuel 0 0 chunk hchunk
      (fun _ _ => Nat.zero_le _) (by omega)]
  simp [remFrom]

/-- A small concrete font (given directly as a decoded `Font` value; only
the fields `to_writer` consumes matter for emission). -/
def sampleFont : Font :=
  ⟨CmapTable.Deltas ⟨[], []⟩, ⟨List.replicate 54 0, 0⟩, ⟨List.replicate 36 0, 2⟩,
    ⟨⟨[], 0⟩, 2⟩, ⟨stdMaxp 2, 0⟩, ⟨[], 0⟩, ⟨[], 0⟩, ⟨[], 0⟩,
    ⟨LocaFormat.Short, ⟨[], 0⟩⟩, ⟨[], 0⟩, none, none, none⟩

/-- A small concrete subset over `sampleFont`: glyph 0 plus one simple
3-byte glyph reached from the character 'A'. -/
def sampleSubset : FontSubset :=
  ⟨sampleFont, [(65, 1)], [(0, 0), (9, 1)],
    [⟨Glyph.Empty, 0, 0⟩, ⟨Glyph.Simple [1, 2, 3], 6, 1⟩]⟩

set_option maxRecDepth 6000 in
/-- C6 counterexample: on `sampleSubset`'s writer (whose `maxp`, `glyf` and
`head` tables need zero padding), the drained bytes differ from the entire
`table_data` buffer. -/
theorem c6_reader_counterexample :
    readerDrain sampleSubset.to_writer (readerDataOffset sampleSubset.to_writer)
        200 0 0 7 ≠ sampleSubset.to_writer.table_data := by
  decide

set_option maxRecDepth 6000 in
theorem c6_reader_yields_windows_witness :
    1 ≤ 7 ∧ sampleSubset.to_writer.table_data.length < 200 ∧
    readerDrain sampleSubset.to_writer (readerDataOffset sampleSubset.to_writer) 200 0 0 7
      = (sampleSubset.to_writer.tables.map fun r =>
          (sampleSubset.to_writer.table_data.drop r.offset).take r.length).flatten :=
  ⟨by decide, by decide,
    c6_reader_yields_windows sampleSubset 7 200 (by decide) (by decide)⟩

/-! ### OpenType emission: directory bytes and the checksum balance (C1) -/

theorem insertRec_perm (r : TableRecord) (l : List TableRecord) :
    (insertRec r l).Perm (r :: l) := by
  induction l with
  | nil => exact List.Perm.refl _
  | cons x xs ih =>
    rw [insertRec]
    split
    · exact List.Perm.refl _
    · exact (List.Perm.cons x ih).trans (List.Perm.swap r x xs)

theorem sortRecords_perm (l : List TableRecord) : (sortRecords l).Perm l := by
  induction l with
  | nil => exact List.Perm.refl _
  | cons x xs ih =>
    exact (insertRec_perm x (sortRecords xs)).trans (List.Perm.cons x ih)

theorem foldl_write_opentype (l : List TableRecord) : ∀ buf : List Nat,
    l.foldl (fun b r => r.write_opentype b) buf = buf ++ (l.map recordBytes).flatten := by
  induction l with
  | nil => intro buf; simp
  | cons r rest ih =>
    intro buf
    simp only [List.foldl_cons, List.map_cons, List.flatten_cons]
    rw [write_opentype_eq, ih, List.append_assoc]

theorem sumWords_dir (l : List TableRecord) :
    sumWords ((l.map recordBytes).flatten) % 4294967296
      = (l.map TableRecord.self_checksum).sum % 4294967296 := by
  induction l with
  | nil => simp [sumWords, chunks4]
  | cons r rest ih =>
    simp only [List.map_cons, List.flatten_cons, List.sum_cons]
    rw [sumWords_append _ _ (by simp [recordBytes_length])]
    have h1 := sumWords_recordBytes r
    omega

theorem dir_length (l : List TableRecord) :
    ((l.map recordBytes).flatten).length = 16 * l.length := by
  induction l with
  | nil => simp
  | cons r rest ih =>
    simp only [List.map_cons, List.flatten_cons, List.length_append, List.length_cons,
      recordBytes_length, ih]
    omega

theorem header_length (w : FontWriter) : w.write_sfnt_header.length = 12 := by
  simp [FontWriter.write_sfnt_header, writeU16, writeU32, u16BE, u32BE]

theorem file_checksum_foldl (l : List TableRecord) : ∀ a : Nat,
    l.foldl (fun acc r => (acc + r.self_checksum + r.checksum) % 4294967296)
        (a % 4294967296)
      = (a + (l.map TableRecord.self_checksum).sum
          + (l.map TableRecord.checksum).sum) % 4294967296 := by
  induction l with
  | nil => intro a; simp
  | cons r rest ih =>
    intro a
    simp only [List.foldl_cons, List.map_cons, List.sum_cons]
    have h : (a % 4294967296 + r.self_checksum + r.checksum) % 4294967296
        = (a + r.self_checksum + r.checksum) % 4294967296 := by omega
    rw [h, ih (a + r.self_checksum + r.checksum)]
    omega

theorem Tiles.len_mod4 {off : Nat} {rs : List TableRecord} {data : List Nat}
    (h : Tiles off rs data) : data.length % 4 = 0 := by
  induction h with
  | nil off => rfl
  | cons off tag blob rest rs h ih =>
    simp only [List.length_append, List.length_replicate]
    have := padOf_mod blob.length
    omega

theorem window_prefix {α : Type} (X Y : List α) (a L : Nat) (h : a + L ≤ X.length) :
    ((X ++ Y).drop a).take L = (X.drop a).take L := by
  rw [List.drop_append_eq_append_drop, show a - X.length = 0 by omega, List.drop_zero,
    List.take_append_eq_append_take, List.length_drop,
    show L - (X.length - a) = 0 by omega, List.take_zero, List.append_nil]

theorem adjust_data_eq (w : FontWriter) (C : Nat) (hr : TableRecord)
    (hfind : (w.tables.map fun r => { r with offset := r.offset + w.data_offset }).find?
        (fun r => r.tag = TableTag.HEAD) = some hr) :
    w.adjust_data C = some
      ⟨w.tables.map fun r => { r with offset := r.offset + w.data_offset },
        w.table_data.take (hr.offset + Font.HEAD_CHECKSUM_OFFSET - w.data_offset)
          ++ u32BE ((Font.SFNT_CHECKSUM + (4294967296 -
              ((w.tables.map fun r => { r with offset := r.offset + w.data_offset }).foldl
                (fun acc r => (acc + r.self_checksum + r.checksum) % 4294967296) C)
                % 4294967296)) % 4294967296)
          ++ w.table_data.drop
              (hr.offset + Font.HEAD_CHECKSUM_OFFSET - w.data_offset + 4)⟩ := by
  simp only [FontWriter.adjust_data, hfind]

/-- Core checksum balance of `into_opentype`, for any writer whose state
splits as a `head`-free tiled prefix followed by a final `head` record
whose blob carries `u32BE 0` at bytes `8..12` (exactly the state
`to_writer` produces): the emitted file's word sum is `0xB1B0AFBA`, and
every directory entry's checksum matches the checksum recomputed from the
output (for `head`, after re-zeroing bytes `8..12` of its window). -/
theorem writer_checksum_balance
    (w : FontWriter) (t12 : List TableRecord) (d12 hb pad : List Nat) (hrec : TableRecord)
    (hrtag : hrec.tag = TableTag.HEAD)
    (hrcks : hrec.checksum = checksum (hb ++ pad))
    (hroff : hrec.offset = d12.length)
    (hrlen : hrec.length = hb.length)
    (hpad : pad = List.replicate (padOf hb.length) 0)
    (hwt : w.tables = t12 ++ [hrec])
    (hwd : w.table_data = d12 ++ (hb ++ pad))
    (h12 : Tiles 0 t12 d12)
    (htags : ∀ r ∈ t12, r.tag ≠ TableTag.HEAD)
    (hzero : (hb.drop 8).take 4 = u32BE 0)
    (out : List Nat)
    (hout : w.into_opentype = some out) :
    checksum out = Font.SFNT_CHECKSUM ∧
    ∃ w', w.adjust_data (checksum w.write_sfnt_header) = some w' ∧
      out = w.write_sfnt_header ++ ((sortRecords w'.tables).map recordBytes).flatten
        ++ w'.table_data ∧
      (∀ r ∈ w'.tables, r.tag ≠ TableTag.HEAD →
        checksum ((out.drop r.offset).take (r.length + padOf r.length)) = r.checksum) ∧
      (∀ r ∈ w'.tables, r.tag = TableTag.HEAD →
        checksum (((out.drop r.offset).take (r.length + padOf r.length)).take 8
          ++ List.replicate 4 0
          ++ ((out.drop r.offset).take (r.length + padOf r.length)).drop 12)
          = r.checksum) := by
  have h12len : 12 ≤ hb.length := by
    have hzl := congrArg List.length hzero
    simp only [List.length_take, List.length_drop, u32BE, List.length_cons,
      List.length_nil] at hzl
    omega
  have h8t : (hb.take 8).length = 8 := by
    rw [List.length_take]
    omega
  have hbrecon : hb = hb.take 8 ++ (u32BE 0 ++ hb.drop 12) := by
    conv_lhs => rw [← List.take_append_drop 8 hb]
    congr 1
    conv_lhs => rw [← List.take_append_drop 4 (hb.drop 8)]
    rw [hzero, List.drop_drop]
  have hAll : Tiles 0 (t12 ++ [hrec]) (d12 ++ (hb ++ pad)) := by
    have h' := h12.snoc hrec.tag hb
    rw [← hpad] at h'
    have hrec_eq : (⟨hrec.tag, checksum (hb ++ pad), 0 + d12.length, hb.length⟩
        : TableRecord) = hrec := by
      rw [zero_add, ← hrcks, ← hroff, ← hrlen]
    rw [hrec_eq] at h'
    exact h'
  have hD : w.data_offset = 12 + (t12.length + 1) * 16 := by
    rw [FontWriter.data_offset, hwt]
    simp
  -- resolve `find?` on the adjusted tables
  have hfind : (w.tables.map fun r => { r with offset := r.offset + w.data_offset }).find?
      (fun r => r.tag = TableTag.HEAD)
      = some { hrec with offset := hrec.offset + w.data_offset } := by
    rw [hwt, List.map_append, List.find?_append]
    have h1 : ((t12.map fun r => { r with offset := r.offset + w.data_offset }).find?
        fun r => decide (r.tag = TableTag.HEAD)) = none := by
      refine List.find?_eq_none.mpr ?_
      intro x hx
      obtain ⟨r, hr, rfl⟩ := List.mem_map.mp hx
      simpa using htags r hr
    rw [h1]
    simp [List.find?, hrtag]
  have hadj := adjust_data_eq w (checksum w.write_sfnt_header) _ hfind
  have hP : ({ hrec with offset := hrec.offset + w.data_offset }
      : TableRecord).offset + Font.HEAD_CHECKSUM_OFFSET - w.data_offset
      = d12.length + 8 := by
    simp only [Font.HEAD_CHECKSUM_OFFSET, hroff]
    omega
  rw [hP] at hadj
  -- resolve `into_opentype`
  have hopen := hout
  simp only [FontWriter.into_opentype, hadj, foldl_write_opentype] at hopen
  have houteq : out = (w.write_sfnt_header
      ++ (((sortRecords (w.tables.map fun r =>
          { r with offset := r.offset + w.data_offset })).map recordBytes).flatten))
      ++ (w.table_data.take (d12.length + 8)
        ++ u32BE ((Font.SFNT_CHECKSUM + (4294967296 -
            ((w.tables.map fun r => { r with offset := r.offset + w.data_offset }).foldl
              (fun acc r => (acc + r.self_checksum + r.checksum) % 4294967296)
              (checksum w.write_sfnt_header)) % 4294967296)) % 4294967296)
        ++ w.table_data.drop (d12.length + 8 + 4)) :=
    (Option.some.inj hopen).symm
  -- clean up the patched data
  have h_take : w.table_data.take (d12.length + 8) = d12 ++ hb.take 8 := by
    rw [hwd, List.take_append_eq_append_take, List.take_of_length_le (by omega),
      show d12.length + 8 - d12.length = 8 by omega, List.take_append_eq_append_take,
      show 8 - hb.length = 0 by omega, List.take_zero, List.append_nil]
  have h_drop : w.table_data.drop (d12.length + 8 + 4) = hb.drop 12 ++ pad := by
    rw [hwd, show d12.length + 8 + 4 = d12.length + 12 by omega, List.drop_append,
      List.drop_append_eq_append_drop, show 12 - hb.length = 0 by omega, List.drop_zero]
  rw [h_take, h_drop] at houteq
  -- lengths
  have hfl : (((sortRecords (w.tables.map fun r =>
      { r with offset := r.offset + w.data_offset })).map recordBytes).flatten).length
      = 16 * (t12.length + 1) := by
    rw [dir_length, (sortRecords_perm _).length_eq, List.length_map, hwt]
    simp
  have hXlen : (w.write_sfnt_header
      ++ (((sortRecords (w.tables.map fun r =>
        { r with offset := r.offset + w.data_offset })).map recordBytes).flatten)).length
      = w.data_offset := by
    rw [List.length_append, header_length, hfl, hD]
    omega
  have hd4 : d12.length % 4 = 0 := h12.len_mod4
  have hcks_all : (((t12 ++ [hrec]).map TableRecord.checksum).sum) % 4294967296
      = sumWords (d12 ++ (hb ++ pad)) % 4294967296 := hAll.checksum_sum
  have hcksT' : ((w.tables.map fun r =>
      { r with offset := r.offset + w.data_offset }).map TableRecord.checksum).sum
      = ((t12 ++ [hrec]).map TableRecord.checksum).sum := by
    rw [hwt, List.map_map]
    exact congrArg List.sum (List.map_congr_left fun r _ => rfl)
  have hself_dir : sumWords (((sortRecords (w.tables.map fun r =>
      { r with offset := r.offset + w.data_offset })).map recordBytes).flatten) % 4294967296
      = (((w.tables.map fun r => { r with offset := r.offset + w.data_offset }).map
          TableRecord.self_checksum).sum) % 4294967296 := by
    rw [sumWords_dir]
    exact congrArg (· % 4294967296)
      (((sortRecords_perm _).map TableRecord.self_checksum).sum_eq)
  have hF : ((w.tables.map fun r => { r with offset := r.offset + w.data_offset }).foldl
      (fun acc r => (acc + r.self_checksum + r.checksum) % 4294967296)
      (checksum w.write_sfnt_header))
      = (sumWords w.write_sfnt_header
        + ((w.tables.map fun r => { r with offset := r.offset + w.data_offset }).map
            TableRecord.self_checksum).sum
        + ((w.tables.map fun r => { r with offset := r.offset + w.data_offset }).map
            TableRecord.checksum).sum) % 4294967296 := by
    rw [checksum_eq_sumWords, file_checksum_foldl]
  refine ⟨?_, _, hadj, ?_, ?_, ?_⟩
  -- whole-file checksum
  · obtain ⟨H, FLb, A, SS, SC, hout2, hH4, hFL4, hFLsum, hSC, hAval⟩ :
        ∃ (H FLb : List Nat) (A SS SC : Nat),
          out = (H ++ FLb) ++ ((d12 ++ hb.take 8) ++ u32BE A ++ (hb.drop 12 ++ pad)) ∧
          H.length % 4 = 0 ∧ FLb.length % 4 = 0 ∧
          sumWords FLb % 4294967296 = SS % 4294967296 ∧
          SC % 4294967296 = sumWords (d12 ++ (hb ++ pad)) % 4294967296 ∧
          A = (Font.SFNT_CHECKSUM + (4294967296 -
            ((sumWords H + SS + SC) % 4294967296) % 4294967296)) % 4294967296 := by
      refine ⟨w.write_sfnt_header, _, _,
        ((w.tables.map fun r => { r with offset := r.offset + w.data_offset }).map
          TableRecord.self_checksum).sum,
        ((w.tables.map fun r => { r with offset := r.offset + w.data_offset }).map
          TableRecord.checksum).sum,
        houteq, by rw [header_length], ?_, hself_dir, ?_, ?_⟩
      · rw [hfl]
        omega
      · rw [hcksT']
        exact hcks_all
      · rw [hF]
    have hsum_out : checksum out
        = (sumWords H + sumWords FLb + (sumWords d12 + (sumWords (hb.take 8)
          + (A % 4294967296 + sumWords (hb.drop 12 ++ pad))))) % 4294967296 := by
      rw [hout2, checksum_eq_sumWords,
        sumWords_append (H ++ FLb) _ (by rw [List.length_append]; omega),
        sumWords_append H _ hH4,
        List.append_assoc, List.append_assoc,
        sumWords_append d12 _ hd4,
        sumWords_append (hb.take 8) _ (by rw [h8t]),
        sumWords_append (u32BE A) _ (by rw [u32BE_length]),
        sumWords_u32BE]
    have hsum_data : sumWords (d12 ++ (hb ++ pad))
        = sumWords d12 + (sumWords (hb.take 8) + sumWords (hb.drop 12 ++ pad)) := by
      conv_lhs => rw [hbrecon]
      rw [List.append_assoc, List.append_assoc,
        sumWords_append d12 _ hd4,
        sumWords_append (hb.take 8) _ (by rw [h8t]),
        sumWords_append (u32BE 0) _ (by rw [u32BE_length]),
        sumWords_u32BE]
      omega
    rw [hsum_out]
    simp only [Font.SFNT_CHECKSUM] at hAval ⊢
    omega
  -- the directory/data layout of the output
  · rw [h_take, h_drop]
    exact houteq
  -- non-head tables: checksum of the padded window
  · intro r' hr' hne
    rw [hwt, List.map_append, List.mem_append] at hr'
    rcases hr' with hr' | hr'
    · obtain ⟨r, hr, rfl⟩ := List.mem_map.mp hr'
      obtain ⟨blob, hb1, hb2, hb3⟩ := h12.window r hr
      simp only [Nat.sub_zero] at hb3
      have hbound := h12.bounds r hr
      obtain ⟨X, A, hout3, hXl⟩ : ∃ (X : List Nat) (A : Nat),
          out = X ++ ((d12 ++ hb.take 8) ++ u32BE A ++ (hb.drop 12 ++ pad)) ∧
          X.length = w.data_offset := ⟨_, _, houteq, hXlen⟩
      dsimp only
      rw [hout3, show r.offset + w.data_offset = X.length + r.offset by omega,
        List.drop_append, List.append_assoc, List.append_assoc,
        window_prefix _ _ _ _ (by omega), hb3]
      exact hb2.symm
    · simp only [List.map_cons, List.map_nil, List.mem_singleton] at hr'
      subst hr'
      exact absurd hrtag hne
  -- the head table: checksum after re-zeroing bytes 8..12 of its window
  · intro r' hr' htag
    rw [hwt, List.map_append, List.mem_append] at hr'
    rcases hr' with hr' | hr'
    · obtain ⟨r, hr, rfl⟩ := List.mem_map.mp hr'
      exact absurd htag (htags r hr)
    · simp only [List.map_cons, List.map_nil, List.mem_singleton] at hr'
      subst hr'
      obtain ⟨X, A, hout3, hXl⟩ : ∃ (X : List Nat) (A : Nat),
          out = X ++ ((d12 ++ hb.take 8) ++ u32BE A ++ (hb.drop 12 ++ pad)) ∧
          X.length = w.data_offset := ⟨_, _, houteq, hXlen⟩
      have hY : (hb.take 8 ++ (u32BE A ++ (hb.drop 12 ++ pad))).length
          = hb.length + padOf hb.length := by
        simp only [List.length_append, h8t, u32BE_length, List.length_drop, hpad,
          List.length_replicate]
        omega
      have ht8le12 : (hb.take 8).length ≤ 12 := by omega
      have hu32le : (u32BE A).length ≤ 4 := le_of_eq (u32BE_length A)
      dsimp only
      rw [hout3, hroff, hrlen,
        show d12.length + w.data_offset = X.length + d12.length by omega,
        List.drop_append,
        List.append_assoc (d12 ++ hb.take 8) (u32BE A) (hb.drop 12 ++ pad),
        List.append_assoc d12 (hb.take 8) (u32BE A ++ (hb.drop 12 ++ pad)),
        List.drop_left,
        List.take_of_length_le (le_of_eq hY),
        List.take_append_eq_append_take, List.take_of_length_le (le_of_eq h8t), h8t,
        Nat.sub_self, List.take_zero, List.append_nil,
        List.drop_append_eq_append_drop, List.drop_eq_nil_of_le ht8le12, h8t,
        show (12 : Nat) - 8 = 4 from rfl, List.nil_append,
        List.drop_append_eq_append_drop, List.drop_eq_nil_of_le hu32le, u32BE_length,
        Nat.sub_self, List.drop_zero, List.nil_append,
        hrcks, show (List.replicate 4 0 : List Nat) = u32BE 0 from rfl]
      refine congrArg checksum ?_
      conv_rhs => rw [hbrecon]
      simp [List.append_assoc]

/-- C1: for every subset whose source `head` table has the ≥ 52 bytes every
parsed font provides, a successful OpenType emission yields a byte buffer
whose whole-file wrapping word sum is `0xB1B0AFBA`, and in which every
directory entry's checksum equals the checksum recomputed from the output's
table bytes — for `head`, after re-zeroing the 4-byte `checksumAdjustment`
field at offset 8 of its window. -/
theorem c1_output_checksums (s : FontSubset) (out : List Nat)
    (hhead : 52 ≤ s.font.head.bytes.length)
    (hout : s.to_truetype = some out) :
    checksum out = Font.SFNT_CHECKSUM ∧
    ∃ w', s.to_writer.adjust_data (checksum s.to_writer.write_sfnt_header) = some w' ∧
      out = s.to_writer.write_sfnt_header
        ++ ((sortRecords w'.tables).map recordBytes).flatten ++ w'.table_data ∧
      (∀ r ∈ w'.tables, r.tag ≠ TableTag.HEAD →
        checksum ((out.drop r.offset).take (r.length + padOf r.length)) = r.checksum) ∧
      (∀ r ∈ w'.tables, r.tag = TableTag.HEAD →
        checksum (((out.drop r.offset).take (r.length + padOf r.length)).take 8
          ++ List.replicate 4 0
          ++ ((out.drop r.offset).take (r.length + padOf r.length)).drop 12)
          = r.checksum) := by
  have hsplit : s.to_writer
      = (writeBlobs ⟨[], []⟩ (subsetPre s)).writeTableBlob TableTag.HEAD (headBlob s) := by
    rw [to_writer_eq, subsetBlobs, writeBlobs_append]
    rfl
  rw [writeTableBlob_eq] at hsplit
  have ht8 : (s.font.head.bytes.take 8).length = 8 := by
    rw [List.length_take]
    omega
  have hzero : ((headBlob s).drop 8).take 4 = u32BE 0 := by
    rw [headBlob, write_head_table.eq_def]
    simp only [List.nil_append, writeU32, writeU16, List.append_assoc]
    rw [List.drop_append_eq_append_drop, List.drop_eq_nil_of_le (le_of_eq ht8), ht8,
      Nat.sub_self, List.drop_zero, List.nil_append,
      List.take_append_eq_append_take, List.take_of_length_le (le_of_eq (u32BE_length 0)),
      u32BE_length, Nat.sub_self, List.take_zero, List.append_nil]
  have htags : ∀ r ∈ (writeBlobs (⟨[], []⟩ : FontWriter) (subsetPre s)).tables,
      r.tag ≠ TableTag.HEAD := by
    intro r hr heq
    have hmap := List.mem_map_of_mem TableRecord.tag hr
    rw [writeBlobs_tags] at hmap
    rw [heq] at hmap
    revert hmap
    cases hcvt : s.font.cvt <;> cases hfpgm : s.font.fpgm <;> cases hprep : s.font.prep <;>
      simp [subsetPre, hcvt, hfpgm, hprep, TableTag.HEAD, TableTag.CMAP, TableTag.CVT,
        TableTag.FPGM, TableTag.HMTX, TableTag.HHEA, TableTag.MAXP, TableTag.NAME,
        TableTag.OS2, TableTag.POST, TableTag.PREP, TableTag.GLYF, TableTag.LOCA]
  exact writer_checksum_balance s.to_writer
    (writeBlobs ⟨[], []⟩ (subsetPre s)).tables
    (writeBlobs ⟨[], []⟩ (subsetPre s)).table_data
    (headBlob s) (List.replicate (padOf (headBlob s).length) 0)
    ⟨TableTag.HEAD,
      checksum (headBlob s ++ List.replicate (padOf (headBlob s).length) 0),
      (writeBlobs ⟨[], []⟩ (subsetPre s)).table_data.length, (headBlob s).length⟩
    rfl rfl rfl rfl rfl
    (by rw [hsplit]) (by rw [hsplit])
    (writeBlobs_tiles _ ⟨[], []⟩ (Tiles.nil 0))
    htags hzero out hout

/-- The OpenType bytes emitted for `sampleSubset`. -/
def sampleOut : List Nat := (FontSubset.to_truetype sampleSubset).getD []

set_option maxRecDepth 6000 in
theorem c1_output_checksums_witness :
    52 ≤ sampleSubset.font.head.bytes.length ∧
    sampleSubset.to_truetype = some sampleOut ∧
    checksum sampleOut = Font.SFNT_CHECKSUM :=
  ⟨by decide, by decide,
    (c1_output_checksums sampleSubset sampleOut (by decide) (by decide)).1⟩

end FontTools
